import Mathlib

/-!
Verification of the changelog-generation backend (greptile-project).

This file gives a shallow embedding, in Lean 4, of the code that the frozen
claims are about:

* `backend/src/services/openai.ts` (first revision in the file):
  `OpenAIService.analyzeCommits` and `OpenAIService.generateChangelog` —
  markdown-fence stripping, `JSON.parse`, per-element normalization with
  defaults, the per-commit fallback, and the orchestrator-side metadata
  recount.
* `backend/src/services/integration.ts` (and its revision `src/unnamed/part_001`):
  `ChangelogIntegrationService.startGeneration`, `processGeneration`,
  `createChangelogFromGeneration`, `getGeneration`, `saveGeneration`,
  `updateGenerationProgress`, `updateGenerationStatus`, `saveChangelog`,
  `determineImpact`.
* `backend/src/lib/database.ts`: the three changelog tables (PRIMARY KEY
  columns) and `generateId` (`crypto.randomUUID()`), modelled as an id
  supply `ids : Nat → String` threaded with a counter.

Out-of-process collaborators (the GitHub commit fetch and the OpenAI chat
request) are modelled as explicit outcome parameters: `Except Unit (List Commit)`
for the fetch and `ModelOutcome` (failure, or a raw response text) for the
language model, since the embedded code only observes their results.

JavaScript runtime semantics that the embedded code relies on are modelled
explicitly: truthiness (`x || y`), `===` against string literals,
`Boolean(x)`, `Array.isArray`, property access (which throws a `TypeError` on
`null`/`undefined`, modelled with `Except Unit`), and
`JSON.parse` (a full executable JSON parser below). `undefined` is
modelled as `Option.none` around `JsonValue`.
-/

namespace GreptileChangelog

/-- A JavaScript runtime value as produced by `JSON.parse` and the arithmetic
the embedded code performs on it. Numbers are `Rat` (JS numbers are floats;
every literal the code compares or defaults with — `0.5`, `0.3`, counts — is
exactly representable, and no embedded operation rounds). `jinf` is the IEEE
`+Infinity` value: it is never produced by the parser, only by `Math.min`
applied to an empty spread (`Math.min()` in `generateChangelog`'s confidence
fallback). `undefined` is not a constructor; it is `Option.none` at use sites. -/
inductive JsonValue where
  | jnull
  | jbool (b : Bool)
  | jnum (q : Rat)
  | jstr (s : String)
  | jarr (elems : List JsonValue)
  | jobj (fields : List (String × JsonValue))
  | jinf

mutual

def JsonValue.beq : JsonValue → JsonValue → Bool
  | .jnull, .jnull => true
  | .jbool a, .jbool b => a == b
  | .jnum a, .jnum b => a == b
  | .jstr a, .jstr b => a == b
  | .jarr xs, .jarr ys => JsonValue.beqList xs ys
  | .jobj xs, .jobj ys => JsonValue.beqFields xs ys
  | .jinf, .jinf => true
  | _, _ => false

def JsonValue.beqList : List JsonValue → List JsonValue → Bool
  | [], [] => true
  | x :: xs, y :: ys => JsonValue.beq x y && JsonValue.beqList xs ys
  | _, _ => false

def JsonValue.beqFields : List (String × JsonValue) → List (String × JsonValue) → Bool
  | [], [] => true
  | (k, v) :: xs, (k2, v2) :: ys => k == k2 && JsonValue.beq v v2 && JsonValue.beqFields xs ys
  | _, _ => false

end

instance : BEq JsonValue := ⟨JsonValue.beq⟩

/-- JS truthiness of a defined value: `false`, `0`, `NaN`, `''`, `null` are
falsy; every object (arrays and plain objects included) is truthy. -/
def jsTruthy : JsonValue → Bool
  | .jnull => false
  | .jbool b => b
  | .jnum q => !(q == 0)
  | .jstr s => !(s == "")
  | .jarr _ => true
  | .jobj _ => true
  | .jinf => true

/-- JS truthiness where `none` is `undefined` (falsy). -/
def jsTruthyO : Option JsonValue → Bool
  | none => false
  | some v => jsTruthy v

/-- Embeds `a || b` where `a` may be `undefined` and `b` is a defined value. -/
def jsOrJ (a : Option JsonValue) (b : JsonValue) : JsonValue :=
  match a with
  | some v => if jsTruthy v then v else b
  | none => b

/-- Embeds `a || b` where both sides may be `undefined`. -/
def jsOrO (a b : Option JsonValue) : Option JsonValue :=
  match a with
  | some v => if jsTruthy v then some v else b
  | none => b

/-- Embeds `v === "lit"` for a defined value `v` and a string literal. -/
def jsEqStr (v : JsonValue) (s : String) : Bool :=
  match v with
  | .jstr t => t == s
  | _ => false

/-- Embeds `v === "lit"` where `v` may be `undefined`. -/
def jsEqStrO (v : Option JsonValue) (s : String) : Bool :=
  match v with
  | some w => jsEqStr w s
  | none => false

/-- Property lookup on a JS object's field list. Later duplicate keys win,
as in `JSON.parse` and object literals. -/
def jsObjGet (fields : List (String × JsonValue)) (k : String) : Option JsonValue :=
  fields.foldl (fun acc p => if p.1 == k then some p.2 else acc) none

/-- Embeds `v.f`: property access on a defined value. Throws a `TypeError`
(modelled `Except.error`) when `v` is `null`; yields `undefined` for a
primitive or an array (none of the accessed names is a built-in), and a
field lookup for an object. -/
def jsGetField (v : JsonValue) (f : String) : Except Unit (Option JsonValue) :=
  match v with
  | .jnull => .error ()
  | .jobj fields => .ok (jsObjGet fields f)
  | _ => .ok none

/-- Embeds `v?.f` / plain field read used where `v` is known non-null: the total
variant of `jsGetField` (returns `undefined` instead of throwing). -/
def jField (v : JsonValue) (f : String) : Option JsonValue :=
  match v with
  | .jobj fields => jsObjGet fields f
  | _ => none

/-- Embeds `v.f?.g` where `v` is a defined non-null value (optional chain on the
inner step, as in `changelog.metadata?.confidence`). -/
def jFieldChain (v : JsonValue) (f g : String) : Option JsonValue :=
  match jField v f with
  | none => none
  | some .jnull => none
  | some m => jField m g

def fenceJsonNl : List Char := "```json\n".data

def fenceJson : List Char := "```json".data

def fenceNlTicks : List Char := "\n```".data

def fenceTicks : List Char := "```".data

def fenceTicksNl : List Char := "```\n".data

/-- Embeds `s.replace(/```json\n?|\n?```/g, '')`. The fuel is the character
count: every step consumes at least one character, so `stripJsonFencesGo`
never runs out before the input does (structural recursion on the fuel
keeps the definition kernel-reducible). -/
def stripJsonFencesGo : Nat → List Char → List Char
  | 0, cs => cs
  | fuel + 1, cs =>
    if cs.take 8 = fenceJsonNl then stripJsonFencesGo fuel (cs.drop 8)
    else if cs.take 7 = fenceJson then stripJsonFencesGo fuel (cs.drop 7)
    else if cs.take 4 = fenceNlTicks then stripJsonFencesGo fuel (cs.drop 4)
    else if cs.take 3 = fenceTicks then stripJsonFencesGo fuel (cs.drop 3)
    else
      match cs with
      | [] => []
      | c :: rest => c :: stripJsonFencesGo fuel rest

def stripJsonFences (cs : List Char) : List Char := stripJsonFencesGo cs.length cs

/-- Embeds `s.replace(/```\n?|\n?```/g, '')` — the second cleanup pass in
`generateChangelog`. -/
def stripPlainFencesGo : Nat → List Char → List Char
  | 0, cs => cs
  | fuel + 1, cs =>
    if cs.take 4 = fenceTicksNl then stripPlainFencesGo fuel (cs.drop 4)
    else if cs.take 3 = fenceTicks then stripPlainFencesGo fuel (cs.drop 3)
    else if cs.take 4 = fenceNlTicks then stripPlainFencesGo fuel (cs.drop 4)
    else
      match cs with
      | [] => []
      | c :: rest => c :: stripPlainFencesGo fuel rest

def stripPlainFences (cs : List Char) : List Char := stripPlainFencesGo cs.length cs

/-- The whitespace set of JS `String.prototype.trim` restricted to the
characters that can occur here (space, tab, newline, carriage return,
form feed, vertical tab). -/
def jsIsSpace (c : Char) : Bool :=
  c == ' ' || c == '\t' || c == '\n' || c == '\r' || c == (Char.ofNat 12) || c == (Char.ofNat 11)

/-- Embeds `s.trim()`. -/
def jsTrim (cs : List Char) : List Char :=
  ((cs.dropWhile jsIsSpace).reverse.dropWhile jsIsSpace).reverse

def chQuote : Char := Char.ofNat 34

def chBackslash : Char := Char.ofNat 92

def chLBracket : Char := Char.ofNat 91

def chRBracket : Char := Char.ofNat 93

def chLBrace : Char := Char.ofNat 123

def chRBrace : Char := Char.ofNat 125

def jsonIsWs (c : Char) : Bool :=
  c == ' ' || c == '\t' || c == '\n' || c == '\r'

def skipWs (cs : List Char) : List Char := cs.dropWhile jsonIsWs

def hexDigit (c : Char) : Option Nat :=
  if '0' ≤ c ∧ c ≤ '9' then some (c.toNat - 48)
  else if 'a' ≤ c ∧ c ≤ 'f' then some (c.toNat - 87)
  else if 'A' ≤ c ∧ c ≤ 'F' then some (c.toNat - 55)
  else none

def escChar (e : Char) : Option Char :=
  if e = chQuote then some chQuote
  else if e = chBackslash then some chBackslash
  else if e = '/' then some '/'
  else if e = 'b' then some (Char.ofNat 8)
  else if e = 'f' then some (Char.ofNat 12)
  else if e = 'n' then some '\n'
  else if e = 'r' then some '\r'
  else if e = 't' then some '\t'
  else none

/-- Body of a JSON string after the opening quote: returns the decoded
characters and the remainder after the closing quote. -/
def parseStringBody : List Char → Option (List Char × List Char)
  | [] => none
  | c :: rest =>
    if c = chQuote then some ([], rest)
    else if c = chBackslash then
      match rest with
      | [] => none
      | e :: rest2 =>
        if e = 'u' then
          match rest2 with
          | h1 :: h2 :: h3 :: h4 :: rest3 =>
            match hexDigit h1, hexDigit h2, hexDigit h3, hexDigit h4 with
            | some a, some b, some c4, some d =>
              match parseStringBody rest3 with
              | some (body, r) => some (Char.ofNat (((a * 16 + b) * 16 + c4) * 16 + d) :: body, r)
              | none => none
            | _, _, _, _ => none
          | _ => none
        else
          match escChar e with
          | some ec =>
            match parseStringBody rest2 with
            | some (body, r) => some (ec :: body, r)
            | none => none
          | none => none
    else if c.toNat < 32 then none
    else
      match parseStringBody rest with
      | some (body, r) => some (c :: body, r)
      | none => none

/-- One or more decimal digits: value, digit count, remainder. -/
def parseDigits : List Char → Option (Nat × Nat × List Char)
  | [] => none
  | c :: rest =>
    if c.isDigit then
      match parseDigits rest with
      | some (v, n, r) => some ((c.toNat - 48) * 10 ^ n + v, n + 1, r)
      | none => some (c.toNat - 48, 1, rest)
    else none

/-- A JSON number starting at the given characters. The value
`± (int.frac as an integer) / 10 ^ |frac|` scaled by `10 ^ ± exp` is
assembled with integer arithmetic and one `mkRat` normalization (the
rational value of the corresponding IEEE double before rounding; every
number the embedded code inspects is exactly representable). -/
def parseNumber (cs : List Char) : Option (Rat × List Char) :=
  let (neg, cs1) :=
    match cs with
    | c :: rest => if c = '-' then (true, rest) else (false, cs)
    | [] => (false, cs)
  let intPart : Option (Nat × List Char) :=
    match cs1 with
    | '0' :: rest => some (0, rest)
    | c :: _ =>
      if c.isDigit ∧ c ≠ '0' then (parseDigits cs1).map (fun (v, _, r) => (v, r))
      else none
    | [] => none
  match intPart with
  | none => none
  | some (iv, cs2) =>
    let fracPart : Option (Nat × Nat × List Char) :=
      match cs2 with
      | '.' :: rest =>
        match parseDigits rest with
        | some (fv, fn, r) => some (fv, fn, r)
        | none => none
      | _ => some (0, 0, cs2)
    match fracPart with
    | none => none
    | some (fv, fn, cs3) =>
      let expPart : Option (Bool × Nat × List Char) :=
        match cs3 with
        | c :: rest =>
          if c = 'e' ∨ c = 'E' then
            match rest with
            | s :: rest2 =>
              if s = '+' then (parseDigits rest2).map (fun (ev, _, r) => (false, ev, r))
              else if s = '-' then (parseDigits rest2).map (fun (ev, _, r) => (true, ev, r))
              else (parseDigits rest).map (fun (ev, _, r) => (false, ev, r))
            | [] => none
          else some (false, 0, cs3)
        | [] => some (false, 0, cs3)
      match expPart with
      | none => none
      | some (eneg, ev, cs4) =>
        let m : Nat := iv * 10 ^ fn + fv
        let signed : Int := if neg then -(m : Int) else (m : Int)
        let q : Rat :=
          if eneg then mkRat signed (10 ^ fn * 10 ^ ev)
          else mkRat (signed * (10 ^ ev : Nat)) (10 ^ fn)
        some (q, cs4)

/-- Which production the recursive-descent parser is working on. -/
inductive ParseMode where
  | val
  | arrayRest
  | elems
  | objRest
  | members

/-- The parser core, structurally recursive on a fuel argument so that it
is kernel-reducible. `.val` parses one JSON value; `.arrayRest` the text
after `[` (result wrapped as `.jarr`); `.elems` one or more comma-separated
elements up to `]`; `.objRest` the text after the opening brace (result
wrapped as `.jobj`); `.members` one or more `"key": value` members up to
the closing brace. -/
def parseRun : Nat → ParseMode → List Char → Option (JsonValue × List Char)
  | 0, _, _ => none
  | fuel + 1, .val, cs =>
    let cs := skipWs cs
    match cs with
    | [] => none
    | c :: rest =>
      if c = chQuote then
        match parseStringBody rest with
        | some (body, r) => some (.jstr (String.mk body), r)
        | none => none
      else if c = chLBracket then parseRun fuel .arrayRest rest
      else if c = chLBrace then parseRun fuel .objRest rest
      else if cs.take 4 = "null".data then some (.jnull, cs.drop 4)
      else if cs.take 4 = "true".data then some (.jbool true, cs.drop 4)
      else if cs.take 5 = "false".data then some (.jbool false, cs.drop 5)
      else if c = '-' ∨ c.isDigit then
        match parseNumber cs with
        | some (q, r) => some (.jnum q, r)
        | none => none
      else none
  | fuel + 1, .arrayRest, cs =>
    let cs1 := skipWs cs
    match cs1 with
    | c :: _ =>
      if c = chRBracket then some (.jarr [], cs1.drop 1)
      else parseRun fuel .elems cs1
    | [] => none
  | fuel + 1, .elems, cs =>
    match parseRun fuel .val cs with
    | some (v, r) =>
      let r1 := skipWs r
      match r1 with
      | c :: rest =>
        if c = ',' then
          match parseRun fuel .elems rest with
          | some (.jarr vs, r2) => some (.jarr (v :: vs), r2)
          | _ => none
        else if c = chRBracket then some (.jarr [v], rest)
        else none
      | [] => none
    | none => none
  | fuel + 1, .objRest, cs =>
    let cs1 := skipWs cs
    match cs1 with
    | c :: _ =>
      if c = chRBrace then some (.jobj [], cs1.drop 1)
      else parseRun fuel .members cs1
    | [] => none
  | fuel + 1, .members, cs =>
    let cs1 := skipWs cs
    match cs1 with
    | c :: rest =>
      if c = chQuote then
        match parseStringBody rest with
        | some (key, r) =>
          let r1 := skipWs r
          match r1 with
          | c2 :: rest2 =>
            if c2 = ':' then
              match parseRun fuel .val rest2 with
              | some (v, r2) =>
                let r3 := skipWs r2
                match r3 with
                | c3 :: rest3 =>
                  if c3 = ',' then
                    match parseRun fuel .members rest3 with
                    | some (.jobj fields, r4) => some (.jobj ((String.mk key, v) :: fields), r4)
                    | _ => none
                  else if c3 = chRBrace then some (.jobj [(String.mk key, v)], rest3)
                  else none
                | [] => none
              | none => none
            else none
          | [] => none
        | none => none
      else none
    | [] => none

/-- Embeds `JSON.parse(s)`: parse one value; anything but whitespace after it is a
syntax error. The fuel `4 * length + 8` dominates the recursion depth (every
few recursive steps consume at least one character of input). -/
def jsonParse (cs : List Char) : Option JsonValue :=
  match parseRun (4 * cs.length + 8) .val cs with
  | some (v, r) => if skipWs r = [] then some v else none
  | none => none

/-- A GitHub commit as consumed by the service: `sha` and
`commit.message`. The embedding assumes the structurally well-formed shape
the GitHub client returns (both fields present strings); `analyzeCommits`
reads them before its `try` block and in the fallback. -/
structure Commit where
  sha : String
  message : String
  deriving DecidableEq

/-- The outcome of one chat-completion request as the service observes it:
either the request threw / returned no content (`failure`), or a raw
response text. -/
inductive ModelOutcome where
  | failure
  | response (content : String)

/-- The normalized per-commit analysis object built by `analyzeCommits`.
Fields keep their JS runtime types: `sha`, `scope` may be `undefined`
(`Option`); `type`, `description`, `impact` are whatever truthy value the
model supplied or the string default; `breakingChange`, `userFacing` are
`Boolean(x)`; `confidence` is a number. -/
structure CommitAnalysis where
  sha : Option JsonValue
  type : JsonValue
  scope : Option JsonValue
  description : JsonValue
  impact : JsonValue
  breakingChange : Bool
  affectedComponents : List JsonValue
  userFacing : Bool
  confidence : Rat

/-- The catch-branch fallback element for one commit:
`{sha, type: 'chore', description: message, impact: 'patch',
breakingChange: false, affectedComponents: [], userFacing: false,
confidence: 0.3}` (no `scope` key). -/
def fallbackAnalysis (c : Commit) : CommitAnalysis :=
  { sha := some (.jstr c.sha)
  , type := .jstr "chore"
  , scope := none
  , description := .jstr c.message
  , impact := .jstr "patch"
  , breakingChange := false
  , affectedComponents := []
  , userFacing := false
  , confidence := mkRat 3 10 }

/-- One step of `analyses.map((analysis, index) => ({...}))`: the object
literal's properties in source order, each `||` short-circuiting, every
property access on `analysis` throwing when `analysis` is `null`
(`Except.error`, caught by the surrounding `try`). -/
def normalizeAnalysis (commits : List Commit) (idx : Nat) (a : JsonValue) :
    Except Unit CommitAnalysis := do
  let commitSha : Option JsonValue := (commits[idx]?).map (fun c => .jstr c.sha)
  let sha : Option JsonValue ←
    if jsTruthyO commitSha then pure commitSha else jsGetField a "sha"
  let tyF ← jsGetField a "type"
  let type := jsOrJ tyF (.jstr "chore")
  let scope ← jsGetField a "scope"
  let descF ← jsGetField a "description"
  let commitMsg : Option JsonValue := (commits[idx]?).map (fun c => .jstr c.message)
  let description := jsOrJ descF (jsOrJ commitMsg (.jstr ""))
  let impF ← jsGetField a "impact"
  let impact := jsOrJ impF (.jstr "patch")
  let bcF ← jsGetField a "breakingChange"
  let breakingChange := jsTruthyO bcF
  let acF ← jsGetField a "affectedComponents"
  let affectedComponents : List JsonValue :=
    match acF with
    | some (.jarr xs) => xs
    | _ => []
  let ufF ← jsGetField a "userFacing"
  let userFacing := jsTruthyO ufF
  let cfF ← jsGetField a "confidence"
  let confidence : Rat :=
    match cfF with
    | some (.jnum q) => q
    | _ => mkRat 1 2
  pure { sha, type, scope, description, impact, breakingChange
       , affectedComponents, userFacing, confidence }

/-- Embeds `analyses.map(...)` over the parsed array: sequential, aborting at the
first thrown `TypeError`. -/
def normalizeAll (commits : List Commit) (idx : Nat) :
    List JsonValue → Except Unit (List CommitAnalysis)
  | [] => .ok []
  | e :: rest => do
    let a ← normalizeAnalysis commits idx e
    let as ← normalizeAll commits (idx + 1) rest
    pure (a :: as)

/-- The fence-stripped, trimmed response text of `analyzeCommits`:
`content.replace(/```json\n?|\n?```/g, '').trim()`. -/
def cleanAnalyzeContent (content : String) : List Char :=
  jsTrim (stripJsonFences content.data)

/-- Embeds `OpenAIService.analyzeCommits`. The request outcome is a parameter; a
request failure, a `JSON.parse` failure, a parsed non-array (whose missing
`.map` throws), or a `TypeError` inside the map callback all land in the
`catch` branch, which returns one fallback element per input commit. -/
def analyzeCommits (commits : List Commit) (outcome : ModelOutcome) : List CommitAnalysis :=
  match outcome with
  | .failure => commits.map fallbackAnalysis
  | .response content =>
    match jsonParse (cleanAnalyzeContent content) with
    | some (.jarr elems) =>
      match normalizeAll commits 0 elems with
      | .ok as => as
      | .error _ => commits.map fallbackAnalysis
    | _ => commits.map fallbackAnalysis

/-- Embeds `Math.min(a, b)` on numbers (no NaN arises here). -/
def jsMin (a b : Rat) : Rat := if Rat.blt b a then b else a

/-- Embeds `Math.min(...analyses.map(a => a.confidence))`: `Infinity` on an empty
spread. -/
def minConfidence (analyses : List CommitAnalysis) : JsonValue :=
  match analyses with
  | [] => .jinf
  | a :: rest => .jnum (rest.foldl (fun m b => jsMin m b.confidence) a.confidence)

/-- Embeds `x.substring(0, 7)`: defined for strings, a `TypeError` for every other
value (including `undefined`). -/
def jsSubstring7 : Option JsonValue → Except Unit String
  | some (.jstr s) => .ok (s.take 7)
  | _ => .error ()

/-- Embeds `analyses.map(a => a.sha.substring(0, 7))`, aborting at the first
`TypeError`. -/
def mapSubstring7 : List CommitAnalysis → Except Unit (List String)
  | [] => .ok []
  | a :: rest => do
    let s ← jsSubstring7 a.sha
    let ss ← mapSubstring7 rest
    pure (s :: ss)

/-- The debug log after the parse evaluates `changelog.version` (a
`TypeError` when `changelog` is `null`) and
`changelog.sections?.reduce((sum, section) => sum + (section.changes?.length || 0), 0)`
(a `TypeError` when `sections` is a defined non-null non-array, or an array
containing `null`). -/
def parsedLogCheck (changelog : JsonValue) : Except Unit Unit :=
  match changelog with
  | .jnull => .error ()
  | _ =>
    match jField changelog "sections" with
    | none => .ok ()
    | some .jnull => .ok ()
    | some (.jarr ss) =>
      if ss.any (fun s => match s with | .jnull => true | _ => false) then .error ()
      else .ok ()
    | some _ => .error ()

/-- The metadata block `generateChangelog` attaches to the parsed value
(source order of the object literal; the counts are recomputed from
`analyses`, not read from the model's output). -/
structure GenMetadata where
  model : String
  promptTokens : Nat
  completionTokens : Nat
  processingTime : Nat
  confidence : JsonValue
  totalCommits : Nat
  contributors : Nat
  filesChanged : JsonValue
  linesAdded : JsonValue
  linesRemoved : JsonValue
  generationMethod : String
  breakingChanges : Nat
  newFeatures : Nat
  bugFixes : Nat

/-- The return value `{...changelog, metadata}`: the parsed value plus the
service-built metadata (which overrides any model-reported `metadata`
key). -/
structure GeneratedContent where
  raw : JsonValue
  metadata : GenMetadata

/-- Embeds `generated.sections` and the other reads of the spread result: a field
of the parsed object if it was an object (the `metadata` key excepted —
overridden), `undefined` otherwise (spreading a primitive contributes no
named properties). -/
def GeneratedContent.field (g : GeneratedContent) (f : String) : Option JsonValue :=
  if f == "metadata" then none else jField g.raw f

/-- The fence-stripped, trimmed response text of `generateChangelog`:
`content.replace(/```json\n?|\n?```/g, '').trim()` followed by the second
pass `.replace(/```\n?|\n?```/g, '').trim()`. -/
def cleanSynthContent (content : String) : List Char :=
  jsTrim (stripPlainFences (jsTrim (stripJsonFences content.data)))

/-- Embeds `OpenAIService.generateChangelog` (first revision). Parameters beyond
the source's are the observed request outcome, the configured model name,
the usage token counts of the response, and `Date.now()`. Any error —
request failure, missing content, `JSON.parse` failure, or a `TypeError`
while logging or building metadata — is caught and re-thrown as
`Failed to generate changelog` (`Except.error`). -/
def generateChangelog (analyses : List CommitAnalysis) (modelName : String)
    (outcome : ModelOutcome) (promptTokens completionTokens nowMs : Nat) :
    Except Unit GeneratedContent :=
  match outcome with
  | .failure => .error ()
  | .response content =>
    match jsonParse (cleanSynthContent content) with
    | none => .error ()
    | some changelog => do
      let _ ← parsedLogCheck changelog
      let contributorShas ← mapSubstring7 analyses
      let metadata : GenMetadata :=
        { model := modelName
        , promptTokens := promptTokens
        , completionTokens := completionTokens
        , processingTime := nowMs
        , confidence := jsOrJ (jFieldChain changelog "metadata" "confidence")
            (minConfidence analyses)
        , totalCommits := analyses.length
        , contributors := contributorShas.eraseDups.length
        , filesChanged := jsOrJ (jFieldChain changelog "metadata" "filesChanged") (.jnum 0)
        , linesAdded := jsOrJ (jFieldChain changelog "metadata" "linesAdded") (.jnum 0)
        , linesRemoved := jsOrJ (jFieldChain changelog "metadata" "linesRemoved") (.jnum 0)
        , generationMethod := "ai"
        , breakingChanges := (analyses.filter (fun a => a.breakingChange)).length
        , newFeatures := (analyses.filter (fun a => jsEqStr a.type "feature")).length
        , bugFixes := (analyses.filter (fun a => jsEqStr a.type "bugfix")).length }
      pure { raw := changelog, metadata := metadata }

/-- Embeds `generation.aiMetadata`: the zero-valued literal `startGeneration`
writes (`{model: '', promptTokens: 0, completionTokens: 0,
processingTime: 0, confidence: 0}`), or the metadata block of a finished
`generateChangelog`. -/
inductive AiMetadata where
  | initial
  | generated (m : GenMetadata)

/-- A `ChangelogGeneration` record (one `ai_generations` row). `status` is
the loosely-typed string column. -/
structure ChangelogGeneration where
  id : String
  repositoryId : String
  branch : String
  dateStart : String
  dateEnd : String
  status : String
  progress : Nat
  commits : List CommitAnalysis
  generatedContent : Option GeneratedContent
  aiMetadata : AiMetadata
  createdAt : String
  updatedAt : String

/-- The persisted columns of one `changelogs` row
(`statements.createChangelog`). -/
structure ChangelogMeta where
  totalCommits : Nat
  contributors : Nat
  filesChanged : Nat
  linesAdded : Nat
  linesRemoved : Nat
  generationMethod : String
  aiGenerationId : String

structure ChangelogRow where
  id : String
  version : Option JsonValue
  title : Option JsonValue
  description : Option JsonValue
  repositoryId : String
  branch : String
  dateStart : String
  dateEnd : String
  status : String
  publishedAt : Option String
  publishedBy : Option String
  metadata : ChangelogMeta
  tags : List String
  createdBy : String

/-- One `changelog_sections` row (`statements.createChangelogSection`). -/
structure SectionRow where
  id : String
  changelogId : String
  title : Option JsonValue
  orderIndex : Nat

/-- One `changelog_changes` row (`statements.createChangelogChange`).
`commits` is the one-element array `[change.commit]` whose element may be
`undefined`; `pullRequests` is always `[]` (the built change object has no
such key); `migrationGuide` is always `null` and `codeExamples` always
`{}` for the same reason. -/
structure ChangeRow where
  id : String
  sectionId : String
  description : Option JsonValue
  type : JsonValue
  impact : String
  tags : JsonValue
  commits : List (Option JsonValue)
  author : Option JsonValue
  affectedComponents : List JsonValue

/-- The store. `repositories` keeps only the ids: the embedded operations
consult a repository row solely for existence. -/
structure Database where
  repositories : List String
  generations : List (String × ChangelogGeneration)
  changelogs : List ChangelogRow
  sections : List SectionRow
  changes : List ChangeRow

/-- Embeds `getGeneration(id)`: `SELECT * FROM ai_generations WHERE id = ?`,
reconstructing the record from the row (an identity here). -/
def Database.getGeneration (db : Database) (id : String) : Option ChangelogGeneration :=
  db.generations.lookup id

/-- Embeds `saveGeneration`: `INSERT OR REPLACE INTO ai_generations` keyed by
`id`. -/
def saveGeneration (db : Database) (g : ChangelogGeneration) : Database :=
  if (db.generations.lookup g.id).isSome then
    { db with generations :=
        db.generations.map (fun p => if p.1 == g.id then (p.1, g) else p) }
  else
    { db with generations := db.generations ++ [(g.id, g)] }

/-- Embeds `updateGenerationProgress`: `UPDATE ai_generations SET progress = ?,
updated_at = ? WHERE id = ?` — no status guard, applied to whatever row
matches. -/
def updateGenerationProgress (db : Database) (id : String) (progress : Nat)
    (now : String) : Database :=
  { db with generations :=
      db.generations.map (fun p =>
        if p.1 == id then (p.1, { p.2 with progress := progress, updatedAt := now }) else p) }

/-- Embeds `updateGenerationStatus`: `UPDATE ai_generations SET status = ?,
updated_at = ? WHERE id = ?` — no terminal-state guard. -/
def updateGenerationStatus (db : Database) (id status : String) (now : String) : Database :=
  { db with generations :=
      db.generations.map (fun p =>
        if p.1 == id then (p.1, { p.2 with status := status, updatedAt := now }) else p) }

/-- A `startGeneration` request (the fields the embedded code reads;
`options` only feeds the prompts). -/
structure ChangelogRequest where
  repositoryId : String
  branch : String
  startDate : String
  endDate : String

/-- Embeds `ChangelogIntegrationService.startGeneration` (integration.ts lines
16-61): validate the repository, build the initial record, persist it, and
return it. This is the synchronous prefix the caller observes — the
background `processGeneration` task (and the `.catch` that marks the record
`failed` if that promise rejects) runs afterwards and is modelled
separately by `processGeneration`. -/
def startGeneration (db : Database) (req : ChangelogRequest) (ids : Nat → String)
    (k : Nat) (now : String) :
    Except Unit (ChangelogGeneration × Database × Nat) :=
  if db.repositories.contains req.repositoryId then
    let g : ChangelogGeneration :=
      { id := ids k
      , repositoryId := req.repositoryId
      , branch := req.branch
      , dateStart := req.startDate
      , dateEnd := req.endDate
      , status := "processing"
      , progress := 0
      , commits := []
      , generatedContent := none
      , aiMetadata := .initial
      , createdAt := now
      , updatedAt := now }
    .ok (g, saveGeneration db g, k + 1)
  else .error ()

/-- Embeds `processGeneration` (part_001 lines 61-112; the integration.ts revision
differs only in progress constants and a repository lookup for the
prompt's name). The fetch result and both model-call outcomes are
parameters; every failure path lands in the `catch`, which saves the
record mutated so far with `status = 'failed'`. -/
def processGeneration (db : Database) (g : ChangelogGeneration)
    (fetch : Except Unit (List Commit)) (analyzeOut synthOut : ModelOutcome)
    (modelName : String) (promptTokens completionTokens nowMs : Nat)
    (now : String) : Database :=
  let db1 := updateGenerationProgress db g.id 10 now
  match fetch with
  | .error _ => saveGeneration db1 { g with status := "failed", updatedAt := now }
  | .ok commits =>
    if commits.isEmpty then
      saveGeneration db1 { g with status := "failed", updatedAt := now }
    else
      let db2 := updateGenerationProgress db1 g.id 40 now
      let analyses := analyzeCommits commits analyzeOut
      let g2 := { g with commits := analyses }
      let db3 := saveGeneration db2 g2
      let db4 := updateGenerationProgress db3 g.id 80 now
      match generateChangelog analyses modelName synthOut promptTokens completionTokens nowMs with
      | .error _ => saveGeneration db4 { g2 with status := "failed", updatedAt := now }
      | .ok content =>
        let db5 := updateGenerationProgress db4 g.id 95 now
        saveGeneration db5
          { g2 with
            generatedContent := some content
          , status := "completed"
          , progress := 100
          , updatedAt := now
          , aiMetadata := .generated content.metadata }

/-- Embeds `determineImpact(category)` (integration.ts lines 347-358): a `switch`
with `===` on the raw `change.category` value. -/
def determineImpact (category : Option JsonValue) : String :=
  if jsEqStrO category "breaking" then "major"
  else if jsEqStrO category "feature" then "minor"
  else "patch"

/-- The optional `customizations` argument (`title`, `description`,
`tags` — TS-typed strings). -/
structure Customizations where
  title : Option String
  description : Option String
  tags : Option (List String)

/-- Embeds `customizations?.title || <fallback>` where the fallback may be
`undefined`. -/
def jsOrStrO (a : Option String) (b : Option JsonValue) : Option JsonValue :=
  match a with
  | some t => if t == "" then b else some (.jstr t)
  | none => b

/-- The in-memory change object built inside `sections.map` (integration.ts
lines 148-159). -/
structure BuiltChange where
  id : String
  description : Option JsonValue
  type : JsonValue
  impact : String
  tags : JsonValue
  commits : List (Option JsonValue)
  author : Option JsonValue

/-- The in-memory section object (lines 144-160). -/
structure BuiltSection where
  id : String
  title : Option JsonValue
  order : Nat
  changes : List BuiltChange

/-- The in-memory changelog object (lines 169-192; the revision in
part_001 differs by publishing immediately and re-keying the repository —
the claims cite the integration.ts revision embedded here). -/
structure Changelog where
  id : String
  version : Option JsonValue
  title : Option JsonValue
  description : Option JsonValue
  repositoryId : String
  branch : String
  dateStart : String
  dateEnd : String
  sections : List BuiltSection
  metadata : ChangelogMeta
  status : String
  tags : List String
  createdBy : String
  createdAt : String
  updatedAt : String

/-- One `section.changes.map(change => ({...}))` element: `generateId()`
first, then the property reads (each a `TypeError` on a `null` change). -/
def buildChange (ids : Nat → String) (k : Nat) (change : JsonValue) :
    Except Unit (BuiltChange × Nat) := do
  let cid := ids k
  let descF ← jsGetField change "description"
  let catF ← jsGetField change "category"
  let ty := jsOrJ catF (.jstr "enhancement")
  let impact := determineImpact catF
  let tagsF ← jsGetField change "tags"
  let tags := jsOrJ tagsF (.jarr [])
  let commitF ← jsGetField change "commit"
  let authorF ← jsGetField change "author"
  pure ({ id := cid, description := descF, type := ty, impact := impact
        , tags := tags, commits := [commitF], author := authorF }, k + 1)

def buildChanges (ids : Nat → String) (k : Nat) :
    List JsonValue → Except Unit (List BuiltChange × Nat)
  | [] => .ok ([], k)
  | c :: rest =>
    match buildChange ids k c with
    | .error e => .error e
    | .ok (ch, k1) =>
      match buildChanges ids k1 rest with
      | .error e => .error e
      | .ok (chs, k2) => .ok (ch :: chs, k2)

/-- One `generated.sections.map((section, index) => ({...}))` element: the
section's `generateId()` comes first, then its `changes` array is mapped
(`section.changes.map` throws unless `changes` is an array). -/
def buildSection (ids : Nat → String) (k index : Nat) (sec : JsonValue) :
    Except Unit (BuiltSection × Nat) :=
  let sid := ids k
  match jsGetField sec "title" with
  | .error e => .error e
  | .ok titleF =>
    match jsGetField sec "changes" with
    | .error e => .error e
    | .ok changesF =>
      match changesF with
      | some (.jarr cs) =>
        match buildChanges ids (k + 1) cs with
        | .error e => .error e
        | .ok (chs, k1) =>
          .ok ({ id := sid, title := titleF, order := index, changes := chs }, k1)
      | _ => .error ()

def buildSections (ids : Nat → String) (k index : Nat) :
    List JsonValue → Except Unit (List BuiltSection × Nat)
  | [] => .ok ([], k)
  | s :: rest =>
    match buildSection ids k index s with
    | .error e => .error e
    | .ok (sec, k1) =>
      match buildSections ids k1 (index + 1) rest with
      | .error e => .error e
      | .ok (secs, k2) => .ok (sec :: secs, k2)

/-- The result of an operation that may have written to the store before
failing: `ok` carries the new store and a value, `err` the store as left
behind by the statements that did run. -/
inductive DbOutcome (α : Type) where
  | ok (db : Database) (val : α)
  | err (db : Database)

def DbOutcome.db {α : Type} : DbOutcome α → Database
  | .ok db _ => db
  | .err db => db

def DbOutcome.isErr {α : Type} : DbOutcome α → Bool
  | .ok _ _ => false
  | .err _ => true

/-- Embeds `statements.createChangelog.run(...)`: an `INSERT` that fails on a
duplicate `id` (PRIMARY KEY). The bound parameters follow the source:
`changelog.description || null` etc. -/
def insertChangelogRow (db : Database) (r : ChangelogRow) : Option Database :=
  if db.changelogs.any (fun x => x.id == r.id) then none
  else some { db with changelogs := db.changelogs ++ [r] }

def insertSectionRow (db : Database) (r : SectionRow) : Option Database :=
  if db.sections.any (fun x => x.id == r.id) then none
  else some { db with sections := db.sections ++ [r] }

def insertChangeRow (db : Database) (r : ChangeRow) : Option Database :=
  if db.changes.any (fun x => x.id == r.id) then none
  else some { db with changes := db.changes ++ [r] }

def rowOfChangelog (c : Changelog) : ChangelogRow :=
  { id := c.id
  , version := c.version
  , title := c.title
  , description := if jsTruthyO c.description then c.description else none
  , repositoryId := c.repositoryId
  , branch := c.branch
  , dateStart := c.dateStart
  , dateEnd := c.dateEnd
  , status := c.status
  , publishedAt := none
  , publishedBy := none
  , metadata := c.metadata
  , tags := c.tags
  , createdBy := c.createdBy }

def rowOfChange (sectionId : String) (ch : BuiltChange) : ChangeRow :=
  { id := ch.id
  , sectionId := sectionId
  , description := ch.description
  , type := ch.type
  , impact := ch.impact
  , tags := ch.tags
  , commits := ch.commits
  , author := if jsTruthyO ch.author then ch.author else none
  , affectedComponents := [] }

def rowOfSection (changelogId : String) (s : BuiltSection) : SectionRow :=
  { id := s.id, changelogId := changelogId, title := s.title, orderIndex := s.order }

def saveChanges (db : Database) (sectionId : String) :
    List BuiltChange → DbOutcome Unit
  | [] => .ok db ()
  | ch :: rest =>
    match insertChangeRow db (rowOfChange sectionId ch) with
    | none => .err db
    | some db1 => saveChanges db1 sectionId rest

def saveSections (db : Database) (changelogId : String) :
    List BuiltSection → DbOutcome Unit
  | [] => .ok db ()
  | s :: rest =>
    match insertSectionRow db (rowOfSection changelogId s) with
    | none => .err db
    | some db1 =>
      match saveChanges db1 s.id s.changes with
      | .err db2 => .err db2
      | .ok db2 _ => saveSections db2 changelogId rest

/-- Embeds `saveChangelog` (integration.ts lines 295-344): the document row, then
each section row with its change rows, as individual sequential `INSERT`
statements — there is no surrounding transaction, so a failing insert
re-throws (after logging) with every earlier insert already applied. -/
def saveChangelog (db : Database) (c : Changelog) : DbOutcome Unit :=
  match insertChangelogRow db (rowOfChangelog c) with
  | none => .err db
  | some db1 => saveSections db1 c.id c.sections

/-- Embeds `createChangelogFromGeneration` (integration.ts lines 122-198):
precondition checks, the section/change mapping with fresh ids, the
changelog literal (one more fresh id), then `saveChangelog`. Errors before
the first `INSERT` leave the store untouched. -/
def createChangelogFromGeneration (db : Database) (generationId userId : String)
    (customizations : Option Customizations) (ids : Nat → String) (k : Nat)
    (now : String) : DbOutcome Changelog :=
  match db.getGeneration generationId with
  | none => .err db
  | some gen =>
    if gen.status == "completed" then
      match gen.generatedContent with
      | none => .err db
      | some content =>
        match content.field "sections" with
        | some (.jarr ss) =>
          match buildSections ids k 0 ss with
          | .error _ => .err db
          | .ok (sections, k1) =>
            let chg : Changelog :=
              { id := ids k1
              , version := jsOrStrO (customizations.bind (fun c => c.title))
                  (content.field "version")
              , title := jsOrStrO (customizations.bind (fun c => c.title))
                  (content.field "title")
              , description := jsOrStrO (customizations.bind (fun c => c.description))
                  (content.field "description")
              , repositoryId := gen.repositoryId
              , branch := gen.branch
              , dateStart := gen.dateStart
              , dateEnd := gen.dateEnd
              , sections := sections
              , metadata :=
                  { totalCommits := gen.commits.length
                  , contributors :=
                      ((gen.commits.map (fun c => c.sha)).eraseDups).length
                  , filesChanged := 0
                  , linesAdded := 0
                  , linesRemoved := 0
                  , generationMethod := "ai"
                  , aiGenerationId := generationId }
              , status := "draft"
              , tags := (customizations.bind (fun c => c.tags)).getD []
              , createdBy := userId
              , createdAt := now
              , updatedAt := now }
            match saveChangelog db chg with
            | .ok db1 _ => .ok db1 chg
            | .err db1 => .err db1
        | _ => .err db
    else .err db

/-- Scan for the balanced substring that starts at the first opening
bracket: depth goes up at `[`/`{`, down at `]`/`}`; the segment ends at
the close that returns the depth to zero. -/
def balancedSegment : Nat → List Char → Nat → List Char → Option (List Char)
  | 0, _, _, _ => none
  | _ + 1, [], _, _ => none
  | fuel + 1, c :: rest, depth, acc =>
    if c = chLBracket ∨ c = chLBrace then balancedSegment fuel rest (depth + 1) (c :: acc)
    else if c = chRBracket ∨ c = chRBrace then
      if depth ≤ 1 then some (c :: acc).reverse
      else balancedSegment fuel rest (depth - 1) (c :: acc)
    else balancedSegment fuel rest depth (c :: acc)

/-- Modelled from the spec: the §4.2 resilient-parsing algorithm, which is
absent from the source. "Strip any fenced code-block delimiters
surrounding the text; trim whitespace. If the stripped text does not parse
as JSON, attempt to locate the first `[`/`{` and the best matching closing
bracket by scanning for a balanced substring … and re-attempt parsing on
that substring. If repair succeeds, proceed with the parsed value; if all
attempts fail, surface a parsing failure to the caller." This definition
exists only to be compared against the code's single-attempt parse. -/
def specRepairParse (content : String) : Option JsonValue :=
  let stripped := jsTrim (stripJsonFences content.data)
  match jsonParse stripped with
  | some v => some v
  | none =>
    let tail := stripped.dropWhile (fun c => ¬(c = chLBracket ∨ c = chLBrace))
    match balancedSegment (tail.length + 1) tail 0 [] with
    | some seg => jsonParse seg
    | none => none

/-- A terminal (`completed`) generation record, used by several concrete
checks below. -/
def sampleDoneGen : ChangelogGeneration :=
  { id := "gen1"
  , repositoryId := "acme/widgets"
  , branch := "main"
  , dateStart := "2025-01-01"
  , dateEnd := "2025-01-07"
  , status := "completed"
  , progress := 100
  , commits := []
  , generatedContent := none
  , aiMetadata := .initial
  , createdAt := "t0"
  , updatedAt := "t0" }

/-- A store holding only `sampleDoneGen`. -/
def sampleDb : Database :=
  { repositories := ["acme/widgets"]
  , generations := [("gen1", sampleDoneGen)]
  , changelogs := []
  , sections := []
  , changes := [] }

/-- The freshly created record a background task starts from
(`status = 'processing'`, `progress = 0`, no content), and a store holding
it. -/
def sampleProcGen : ChangelogGeneration :=
  { sampleDoneGen with id := "gen2", status := "processing", progress := 0 }

def sampleProcDb : Database :=
  { sampleDb with generations := [("gen2", sampleProcGen)] }

/-- The value `normalizeAnalysis` produces on a non-null element (the
element's fields defaulted per the source's object literal). -/
def pureNormalize (commits : List Commit) (idx : Nat) (a : JsonValue) : CommitAnalysis :=
  let commitSha : Option JsonValue := (commits[idx]?).map (fun c => .jstr c.sha)
  let commitMsg : Option JsonValue := (commits[idx]?).map (fun c => .jstr c.message)
  { sha := if jsTruthyO commitSha then commitSha else jField a "sha"
  , type := jsOrJ (jField a "type") (.jstr "chore")
  , scope := jField a "scope"
  , description := jsOrJ (jField a "description") (jsOrJ commitMsg (.jstr ""))
  , impact := jsOrJ (jField a "impact") (.jstr "patch")
  , breakingChange := jsTruthyO (jField a "breakingChange")
  , affectedComponents :=
      match jField a "affectedComponents" with
      | some (.jarr xs) => xs
      | _ => []
  , userFacing := jsTruthyO (jField a "userFacing")
  , confidence :=
      match jField a "confidence" with
      | some (.jnum q) => q
      | _ => mkRat 1 2 }

/-- The list `analyses.map(...)` produces on an array of non-null
elements. -/
def pureNormalizeAll (commits : List Commit) (idx : Nat) :
    List JsonValue → List CommitAnalysis
  | [] => []
  | e :: rest => pureNormalize commits idx e :: pureNormalizeAll commits (idx + 1) rest

def builtSectionRows (cid : String) (secs : List BuiltSection) : List SectionRow :=
  secs.map (rowOfSection cid)

def allChangeRows (secs : List BuiltSection) : List ChangeRow :=
  secs.flatMap (fun s => s.changes.map (rowOfChange s.id))

def allBuiltChangeIds (secs : List BuiltSection) : List String :=
  secs.flatMap (fun s => s.changes.map (fun ch => ch.id))

/-- A completed generation whose content has one section with one change,
and a store already holding an unrelated section row whose id the
(random) id supply happens to produce again. -/
def sampleGenMeta : GenMetadata :=
  { model := "gpt-4o-mini"
  , promptTokens := 5
  , completionTokens := 7
  , processingTime := 11
  , confidence := .jnum (mkRat 1 2)
  , totalCommits := 1
  , contributors := 1
  , filesChanged := .jnum 0
  , linesAdded := .jnum 0
  , linesRemoved := .jnum 0
  , generationMethod := "ai"
  , breakingChanges := 0
  , newFeatures := 1
  , bugFixes := 0 }

def c3Raw : JsonValue :=
  .jobj [("version", .jstr "v1"), ("title", .jstr "T"),
         ("sections", .jarr [
            .jobj [("title", .jstr "Features"), ("changes", .jarr [
               .jobj [("description", .jstr "Add OAuth"), ("category", .jstr "feature"),
                      ("commit", .jstr "abc1234")] ])] ])]

def c3Gen : ChangelogGeneration :=
  { sampleDoneGen with
    id := "gen1",
    generatedContent := some { raw := c3Raw, metadata := sampleGenMeta } }

def c3Db : Database :=
  { repositories := ["acme/widgets"]
  , generations := [("gen1", c3Gen)]
  , changelogs := []
  , sections := [{ id := "sec-a", changelogId := "other", title := none, orderIndex := 0 }]
  , changes := [] }

def c3Ids : Nat → String := fun n => ["sec-a", "chg-a", "doc-a"].getD n "fresh"

/-- The `changes` array of a section value (empty when absent — only used
under `sectionOkB`, which requires it to be an array). -/
def changesOf (s : JsonValue) : List JsonValue :=
  match jField s "changes" with
  | some (.jarr cs) => cs
  | _ => []

/-- A change element the map callback survives: anything but `null`. -/
def changeOkB (c : JsonValue) : Bool :=
  match c with
  | .jnull => false
  | _ => true

/-- A section element `createChangelogFromGeneration` maps successfully:
non-null, with an array `changes` field of non-null elements. -/
def sectionOkB (s : JsonValue) : Bool :=
  changeOkB s &&
    (match jField s "changes" with
     | some (.jarr cs) => cs.all changeOkB
     | _ => false)

def pureBuildChange (ids : Nat → String) (k : Nat) (c : JsonValue) : BuiltChange :=
  { id := ids k
  , description := jField c "description"
  , type := jsOrJ (jField c "category") (.jstr "enhancement")
  , impact := determineImpact (jField c "category")
  , tags := jsOrJ (jField c "tags") (.jarr [])
  , commits := [jField c "commit"]
  , author := jField c "author" }

def pureBuildChanges (ids : Nat → String) (k : Nat) : List JsonValue → List BuiltChange
  | [] => []
  | c :: rest => pureBuildChange ids k c :: pureBuildChanges ids (k + 1) rest

/-- Fresh ids one section consumes: its own plus one per change. -/
def sectionWeight (s : JsonValue) : Nat := 1 + (changesOf s).length

def pureBuildSection (ids : Nat → String) (k index : Nat) (s : JsonValue) : BuiltSection :=
  { id := ids k
  , title := jField s "title"
  , order := index
  , changes := pureBuildChanges ids (k + 1) (changesOf s) }

def pureBuildSections (ids : Nat → String) (k index : Nat) :
    List JsonValue → List BuiltSection
  | [] => []
  | s :: rest => pureBuildSection ids k index s ::
      pureBuildSections ids (k + sectionWeight s) (index + 1) rest

def sectionsWeight (ss : List JsonValue) : Nat := (ss.map sectionWeight).sum

/-- Total number of changes inside the content's sections. -/
def totalChangeCount (ss : List JsonValue) : Nat :=
  (ss.map (fun s => (changesOf s).length)).sum

/-- The ids a generation's content carries: the `id` fields of its section
and change objects. -/
def idOfVal (v : JsonValue) : List String :=
  match jField v "id" with
  | some (.jstr s) => [s]
  | _ => []

def contentInternalIds (ss : List JsonValue) : List String :=
  ss.flatMap (fun s => idOfVal s ++ (changesOf s).flatMap idOfVal)

/-- The consecutive supply values `ids k, ids (k+1), …` of length `n`. -/
def idsRange (ids : Nat → String) (k : Nat) : Nat → List String
  | 0 => []
  | n + 1 => ids k :: idsRange ids (k + 1) n

/-- Every id a built section list holds, in traversal order: one section
id, then that section's change ids, and so on. -/
def builtIds (secs : List BuiltSection) : List String :=
  secs.flatMap (fun s => s.id :: s.changes.map (fun ch => ch.id))

/-- The in-memory changelog object `createChangelogFromGeneration` builds
when the generation is `completed` and the sections map succeeds. -/
def builtChangelog (gid uid : String) (cust : Option Customizations)
    (ids : Nat → String) (k : Nat) (now : String) (gen : ChangelogGeneration)
    (content : GeneratedContent) (ss : List JsonValue) : Changelog :=
  { id := ids (k + sectionsWeight ss)
  , version := jsOrStrO (cust.bind (fun c => c.title)) (content.field "version")
  , title := jsOrStrO (cust.bind (fun c => c.title)) (content.field "title")
  , description := jsOrStrO (cust.bind (fun c => c.description))
      (content.field "description")
  , repositoryId := gen.repositoryId
  , branch := gen.branch
  , dateStart := gen.dateStart
  , dateEnd := gen.dateEnd
  , sections := pureBuildSections ids k 0 ss
  , metadata :=
      { totalCommits := gen.commits.length
      , contributors := ((gen.commits.map (fun c => c.sha)).eraseDups).length
      , filesChanged := 0
      , linesAdded := 0
      , linesRemoved := 0
      , generationMethod := "ai"
      , aiGenerationId := gid }
  , status := "draft"
  , tags := (cust.bind (fun c => c.tags)).getD []
  , createdBy := uid
  , createdAt := now
  , updatedAt := now }

def c7Sections : List JsonValue :=
  [ .jobj [("id", .jstr "features"), ("title", .jstr "Features"),
           ("changes", .jarr [
              .jobj [("id", .jstr "feat-auth"), ("description", .jstr "Add OAuth"),
                     ("category", .jstr "feature"), ("commit", .jstr "abc1234")] ])]
  , .jobj [("id", .jstr "bugfixes"), ("title", .jstr "Bug Fixes"),
           ("changes", .jarr [
              .jobj [("id", .jstr "fix-leak"), ("description", .jstr "Fix leak"),
                     ("category", .jstr "bugfix"), ("commit", .jstr "def5678")] ])] ]

def c7Raw : JsonValue :=
  .jobj [("version", .jstr "2025-01-07.cedar"), ("title", .jstr "Release"),
         ("sections", .jarr c7Sections)]

def c7Gen : ChangelogGeneration :=
  { sampleDoneGen with
    id := "gen7",
    generatedContent := some { raw := c7Raw, metadata := sampleGenMeta } }

def c7Db : Database :=
  { repositories := ["acme/widgets"]
  , generations := [("gen7", c7Gen)]
  , changelogs := []
  , sections := []
  , changes := [] }

def c7Ids : Nat → String := fun n => "fresh-" ++ toString n

theorem fenceJsonNl_length : fenceJsonNl.length = 8 := rfl

theorem fenceJson_length : fenceJson.length = 7 := rfl

theorem fenceNlTicks_length : fenceNlTicks.length = 4 := rfl

theorem fenceTicks_length : fenceTicks.length = 3 := rfl

theorem fenceTicksNl_length : fenceTicksNl.length = 4 := rfl

/-- C1, counterexample. The claim states that when the stripped response
text does not parse as JSON, the parser locates the first bracket, scans
for a balanced substring, re-attempts the parse on it, and surfaces a
failure only when all such attempts fail. On `"Result: [1, 2]"` the
stripped text does not parse, and the balanced-substring re-attempt of the
spec's algorithm would succeed with `[1, 2]` — yet `generateChangelog`
surfaces the failure at once and `analyzeCommits` abandons the response
for its per-commit fallback: the code makes exactly one parse attempt and
never repairs. -/
theorem repair_absent_counterexample :
    generateChangelog [] "gpt-4o-mini" (.response "Result: [1, 2]") 0 0 0 = .error () ∧
    analyzeCommits [{ sha := "abc1234", message := "fix parser" }] (.response "Result: [1, 2]")
      = [fallbackAnalysis { sha := "abc1234", message := "fix parser" }] ∧
    specRepairParse "Result: [1, 2]" = some (.jarr [.jnum (mkRat 1 1), .jnum (mkRat 2 1)]) :=
  ⟨rfl, rfl, rfl⟩

/-- C1, amended. When the fence-stripped, trimmed response text does not
parse as JSON, no bracket-locating repair is attempted: the parsing
failure is surfaced to the caller immediately — `generateChangelog`
re-throws it, and `analyzeCommits` replaces the whole response with its
per-commit fallback analyses. -/
theorem single_parse_attempt_failure_surfaced
    (analyses : List CommitAnalysis) (commits : List Commit)
    (modelName content : String) (p c t : Nat)
    (h1 : jsonParse (cleanSynthContent content) = none)
    (h2 : jsonParse (cleanAnalyzeContent content) = none) :
    generateChangelog analyses modelName (.response content) p c t = .error () ∧
    analyzeCommits commits (.response content) = commits.map fallbackAnalysis := by
  constructor
  · simp only [generateChangelog, h1]
  · simp only [analyzeCommits, h2]

/-- Witness for `single_parse_attempt_failure_surfaced` at a concrete
unparseable response. -/
theorem single_parse_attempt_failure_surfaced_witness :
    generateChangelog [] "m" (.response "alas, no JSON here") 0 0 0 = .error () ∧
    analyzeCommits [{ sha := "abc1234", message := "fix" }] (.response "alas, no JSON here")
      = [fallbackAnalysis { sha := "abc1234", message := "fix" }] :=
  single_parse_attempt_failure_surfaced [] [{ sha := "abc1234", message := "fix" }]
    "m" "alas, no JSON here" 0 0 0 rfl rfl

theorem lookup_cons {β : Type} (key k : String) (v : β) (l : List (String × β)) :
    List.lookup key ((k, v) :: l) = if key == k then some v else List.lookup key l := by
  show (match key == k with
        | true => some v
        | false => List.lookup key l) = _
  cases h : (key == k) <;> simp [h]

theorem lookup_map_entry {β : Type} (f : β → β) (id key : String) (l : List (String × β)) :
    List.lookup key (l.map (fun p => if p.1 == id then (p.1, f p.2) else p))
      = if key == id then (List.lookup key l).map f else List.lookup key l := by
  induction l with
  | nil => cases h : (key == id) <;> simp [List.lookup, h]
  | cons a l ih =>
    obtain ⟨k, v⟩ := a
    simp only [List.map]
    cases hki : (k == id) with
    | true =>
      rw [show (if true = true then (k, f v) else (k, v)) = (k, f v) from if_pos rfl]
      rw [lookup_cons, lookup_cons]
      cases hkk : (key == k) with
      | true =>
        have h1 : key = k := by simpa using hkk
        have h2 : k = id := by simpa using hki
        subst h1; subst h2
        simp
      | false =>
        simp only [hkk, Bool.false_eq_true, if_false]
        exact ih
    | false =>
      rw [show (if false = true then (k, f v) else (k, v)) = (k, v) from if_neg (by simp)]
      rw [lookup_cons, lookup_cons]
      cases hkk : (key == k) with
      | true =>
        have h1 : key = k := by simpa using hkk
        subst h1
        simp [hki, hkk]
      | false =>
        simp only [hkk, Bool.false_eq_true, if_false]
        exact ih

theorem lookup_append_single {β : Type} (l : List (String × β)) (k key : String) (v : β) :
    List.lookup key (l ++ [(k, v)])
      = match List.lookup key l with
        | some w => some w
        | none => if key == k then some v else none := by
  induction l with
  | nil =>
    rw [List.nil_append, lookup_cons]
    simp [List.lookup]
  | cons a l ih =>
    obtain ⟨k1, v1⟩ := a
    rw [List.cons_append, lookup_cons, lookup_cons]
    cases h : (key == k1) <;> simp [h, ih]

theorem saveGeneration_lookup_self (db : Database) (g : ChangelogGeneration) :
    (saveGeneration db g).getGeneration g.id = some g := by
  unfold saveGeneration Database.getGeneration
  cases hx : db.generations.lookup g.id with
  | some w =>
    rw [if_pos (by simp [hx])]
    have h := lookup_map_entry (fun _ => g) g.id g.id db.generations
    rw [if_pos (by simp)] at h
    simp only []
    rw [h, hx]
    rfl
  | none =>
    rw [if_neg (by simp [hx])]
    simp only []
    rw [lookup_append_single, hx]
    simp

theorem saveGeneration_lookup_other (db : Database) (g : ChangelogGeneration)
    (key : String) (h : (key == g.id) = false) :
    (saveGeneration db g).getGeneration key = db.getGeneration key := by
  unfold saveGeneration Database.getGeneration
  cases hx : db.generations.lookup g.id with
  | some w =>
    rw [if_pos (by simp [hx])]
    have h2 := lookup_map_entry (fun _ => g) g.id key db.generations
    rw [if_neg (by simp [h])] at h2
    simp only []
    rw [h2]
  | none =>
    rw [if_neg (by simp [hx])]
    simp only []
    rw [lookup_append_single]
    cases hy : db.generations.lookup key with
    | none => simp [h]
    | some w => simp

theorem updateGenerationProgress_lookup (db : Database) (id : String) (p : Nat)
    (now : String) (key : String) :
    (updateGenerationProgress db id p now).getGeneration key
      = if key == id then (db.getGeneration key).map
          (fun g => { g with progress := p, updatedAt := now })
        else db.getGeneration key := by
  unfold updateGenerationProgress Database.getGeneration
  exact lookup_map_entry (fun g => { g with progress := p, updatedAt := now }) id key
    db.generations

theorem updateGenerationStatus_lookup (db : Database) (id status : String)
    (now : String) (key : String) :
    (updateGenerationStatus db id status now).getGeneration key
      = if key == id then (db.getGeneration key).map
          (fun g => { g with status := status, updatedAt := now })
        else db.getGeneration key := by
  unfold updateGenerationStatus Database.getGeneration
  exact lookup_map_entry (fun g => { g with status := status, updatedAt := now }) id key
    db.generations

/-- C2, counterexample. The claim states that progress or status updates
targeting an already-terminal record are rejected or ignored and that a
terminal status never changes again. Neither `updateGenerationProgress`
nor `updateGenerationStatus` inspects the current status: on a record
whose status is `completed`, a status update overwrites the status (here
to `processing`, leaving the terminal state) and a progress update is
applied rather than ignored (progress becomes 55). -/
theorem terminal_update_applied_counterexample :
    sampleDoneGen.status = "completed" ∧
    ((updateGenerationStatus sampleDb "gen1" "processing" "t1").getGeneration "gen1").map
        (fun g => g.status) = some "processing" ∧
    ((updateGenerationProgress sampleDb "gen1" 55 "t1").getGeneration "gen1").map
        (fun g => g.progress) = some 55 :=
  ⟨rfl, rfl, rfl⟩

/-- C2, amended. The update helpers carry no terminal-state guard: they
apply unconditionally to whatever row matches the id. What does hold is
that `updateGenerationProgress` never changes any record's status — so a
record's terminal status survives every progress update, and polls keep
returning it as long as no status update targets the record — while
`updateGenerationStatus` overwrites the status of the matching record
unconditionally, terminal or not. -/
theorem update_helpers_unguarded
    (db : Database) (id : String) (p : Nat) (now key : String)
    (s now2 : String) (g : ChangelogGeneration)
    (hg : db.getGeneration id = some g) :
    ((updateGenerationProgress db id p now).getGeneration key).map (fun r => r.status)
        = (db.getGeneration key).map (fun r => r.status) ∧
    (updateGenerationStatus db id s now2).getGeneration id
        = some { g with status := s, updatedAt := now2 } := by
  constructor
  · rw [updateGenerationProgress_lookup]
    cases h : (key == id) with
    | true =>
      rw [if_pos rfl]
      cases db.getGeneration key <;> rfl
    | false => rw [if_neg (by simp)]
  · rw [updateGenerationStatus_lookup]
    rw [if_pos (by simp), hg]
    rfl

/-- Witness for `update_helpers_unguarded` on the concrete store: a
progress update leaves the completed status in place, and a status update
overwrites it. -/
theorem update_helpers_unguarded_witness :
    ((updateGenerationProgress sampleDb "gen1" 55 "t1").getGeneration "gen1").map
        (fun r => r.status) = (sampleDb.getGeneration "gen1").map (fun r => r.status) ∧
    (updateGenerationStatus sampleDb "gen1" "failed" "t2").getGeneration "gen1"
      = some { sampleDoneGen with status := "failed", updatedAt := "t2" } :=
  update_helpers_unguarded sampleDb "gen1" 55 "t1" "gen1" "failed" "t2" sampleDoneGen rfl

/-- C4. For a valid request (the repository exists) and a fresh id from the
supply (`crypto.randomUUID()` not colliding with any id already persisted —
every id returned by a prior call lives in the store), `startGeneration`
synchronously persists exactly one new `GenerationRecord` with
`status = 'processing'` and `progress = 0` and returns that record, with an
id no prior call returned, before any background-pipeline step runs
(`processGeneration` is modelled separately and has not touched the
returned store). -/
theorem startGeneration_initial_record
    (db : Database) (req : ChangelogRequest) (ids : Nat → String) (k : Nat) (now : String)
    (hrepo : db.repositories.contains req.repositoryId = true)
    (hfresh : db.getGeneration (ids k) = none) :
    ∃ g db2, startGeneration db req ids k now = .ok (g, db2, k + 1) ∧
      g.id = ids k ∧ g.status = "processing" ∧ g.progress = 0 ∧
      g.generatedContent = none ∧
      db2.getGeneration g.id = some g ∧
      db.getGeneration g.id = none ∧
      db2.generations.length = db.generations.length + 1 := by
  unfold startGeneration
  rw [if_pos hrepo]
  refine ⟨_, _, rfl, rfl, rfl, rfl, rfl, saveGeneration_lookup_self db _, hfresh, ?_⟩
  unfold saveGeneration
  have hn : db.generations.lookup (ids k) = none := hfresh
  rw [if_neg (by simp [hn])]
  simp

/-- Witness for `startGeneration_initial_record` on a concrete store and
request. -/
theorem startGeneration_initial_record_witness :
    sampleDb.repositories.contains "acme/widgets" = true ∧
    sampleDb.getGeneration "uuid-7" = none ∧
    (∃ g db2, startGeneration sampleDb
        { repositoryId := "acme/widgets", branch := "main"
        , startDate := "2025-01-01", endDate := "2025-01-07" }
        (fun n => "uuid-" ++ toString n) 7 "t0" = .ok (g, db2, 7 + 1) ∧
      g.id = (fun n : Nat => "uuid-" ++ toString n) 7 ∧ g.status = "processing" ∧
      g.progress = 0 ∧ g.generatedContent = none ∧
      db2.getGeneration g.id = some g ∧
      sampleDb.getGeneration g.id = none ∧
      db2.generations.length = sampleDb.generations.length + 1) :=
  ⟨rfl, rfl,
   startGeneration_initial_record sampleDb
     { repositoryId := "acme/widgets", branch := "main"
     , startDate := "2025-01-01", endDate := "2025-01-07" }
     (fun n => "uuid-" ++ toString n) 7 "t0" rfl rfl⟩

/-- C5. When the commit fetch returns zero commits, `processGeneration`
throws `No commits found in the specified date range`, and the catch saves
the record with `status = 'failed'`: the final record is `failed`, its
`generatedContent` is still absent, and no later pipeline stage runs — the
resulting store does not depend on the categorization or synthesis
outcomes, the model name, the usage counts, or the clock. -/
theorem zero_commits_fails
    (db : Database) (g : ChangelogGeneration)
    (a1 s1 a2 s2 : ModelOutcome) (m1 m2 : String)
    (p1 c1 n1 p2 c2 n2 : Nat) (now : String)
    (hcontent : g.generatedContent = none) :
    ((processGeneration db g (.ok []) a1 s1 m1 p1 c1 n1 now).getGeneration g.id).map
        (fun r => r.status) = some "failed" ∧
    ((processGeneration db g (.ok []) a1 s1 m1 p1 c1 n1 now).getGeneration g.id).map
        (fun r => r.generatedContent) = some none ∧
    processGeneration db g (.ok []) a1 s1 m1 p1 c1 n1 now
      = processGeneration db g (.ok []) a2 s2 m2 p2 c2 n2 now := by
  refine ⟨?_, ?_, rfl⟩
  · show ((saveGeneration _ { g with status := "failed", updatedAt := now }).getGeneration
        g.id).map (fun r => r.status) = some "failed"
    rw [show g.id = ({ g with status := "failed", updatedAt := now } :
          ChangelogGeneration).id from rfl]
    rw [saveGeneration_lookup_self]
    rfl
  · show ((saveGeneration _ { g with status := "failed", updatedAt := now }).getGeneration
        g.id).map (fun r => r.generatedContent) = some none
    rw [show g.id = ({ g with status := "failed", updatedAt := now } :
          ChangelogGeneration).id from rfl]
    rw [saveGeneration_lookup_self]
    simp [hcontent]

/-- Witness for `zero_commits_fails`: the fresh processing record on a
concrete store, fed a zero-commit fetch result. -/
theorem zero_commits_fails_witness :
    ((processGeneration sampleProcDb sampleProcGen (.ok []) .failure .failure "m" 0 0 0
        "t1").getGeneration "gen2").map (fun r => r.status) = some "failed" ∧
    ((processGeneration sampleProcDb sampleProcGen (.ok []) .failure .failure "m" 0 0 0
        "t1").getGeneration "gen2").map (fun r => r.generatedContent) = some none ∧
    processGeneration sampleProcDb sampleProcGen (.ok []) .failure .failure "m" 0 0 0 "t1"
      = processGeneration sampleProcDb sampleProcGen (.ok [])
          (.response "[]") (.response "x") "m2" 1 2 3 "t1" :=
  zero_commits_fails sampleProcDb sampleProcGen .failure .failure (.response "[]")
    (.response "x") "m" "m2" 0 0 0 1 2 3 "t1" rfl

/-- C6. On a generation id that does not exist, or whose record is in any
status other than `completed` (e.g. still `processing`),
`createChangelogFromGeneration` throws before any `INSERT` runs: the
result is an error and the store is returned unchanged — zero document,
section, or change rows are persisted. -/
theorem createChangelog_not_ready_fails
    (db : Database) (gid uid : String) (cust : Option Customizations)
    (ids : Nat → String) (k : Nat) (now : String)
    (h : db.getGeneration gid = none ∨
         ∃ g, db.getGeneration gid = some g ∧ g.status ≠ "completed") :
    createChangelogFromGeneration db gid uid cust ids k now = .err db := by
  unfold createChangelogFromGeneration
  rcases h with h | ⟨g, hg, hs⟩
  · rw [h]
  · rw [hg]
    simp only []
    rw [if_neg (by simp [hs])]

/-- Witness for `createChangelog_not_ready_fails`: a record that is still
`processing`. -/
theorem createChangelog_not_ready_fails_witness :
    sampleProcDb.getGeneration "gen2" = some sampleProcGen ∧
    sampleProcGen.status = "processing" ∧
    createChangelogFromGeneration sampleProcDb "gen2" "u1" none
        (fun n => "uuid-" ++ toString n) 0 "t2" = .err sampleProcDb :=
  ⟨rfl, rfl,
   createChangelog_not_ready_fails sampleProcDb "gen2" "u1" none
     (fun n => "uuid-" ++ toString n) 0 "t2"
     (Or.inr ⟨sampleProcGen, rfl, by simp [sampleProcGen]⟩)⟩

theorem jsGetField_ok (a : JsonValue) (f : String) (h : a ≠ .jnull) :
    jsGetField a f = .ok (jField a f) := by
  cases a <;> first | rfl | exact absurd rfl h

theorem normalizeAnalysis_ok (commits : List Commit) (idx : Nat) (a : JsonValue)
    (h : a ≠ .jnull) :
    normalizeAnalysis commits idx a = .ok (pureNormalize commits idx a) := by
  unfold normalizeAnalysis pureNormalize
  rw [jsGetField_ok a "sha" h, jsGetField_ok a "type" h, jsGetField_ok a "scope" h,
      jsGetField_ok a "description" h, jsGetField_ok a "impact" h,
      jsGetField_ok a "breakingChange" h, jsGetField_ok a "affectedComponents" h,
      jsGetField_ok a "userFacing" h, jsGetField_ok a "confidence" h]
  cases hts : jsTruthyO ((commits[idx]?).map (fun c => .jstr c.sha)) <;>
    simp only [hts] <;> rfl

theorem normalizeAll_ok (commits : List Commit) (elems : List JsonValue) (idx : Nat)
    (h : ∀ e ∈ elems, e ≠ .jnull) :
    normalizeAll commits idx elems = .ok (pureNormalizeAll commits idx elems) := by
  induction elems generalizing idx with
  | nil => rfl
  | cons e rest ih =>
    have he : e ≠ .jnull := h e (List.mem_cons_self e rest)
    unfold normalizeAll pureNormalizeAll
    rw [normalizeAnalysis_ok commits idx e he,
        ih (idx + 1) (fun x hx => h x (List.mem_cons_of_mem e hx))]
    rfl

theorem pureNormalizeAll_length (commits : List Commit) (elems : List JsonValue)
    (idx : Nat) :
    (pureNormalizeAll commits idx elems).length = elems.length := by
  induction elems generalizing idx with
  | nil => rfl
  | cons e rest ih => simpa [pureNormalizeAll] using ih (idx + 1)

theorem pureNormalizeAll_get (commits : List Commit) (elems : List JsonValue)
    (idx i : Nat) (hi : i < elems.length)
    (hr : i < (pureNormalizeAll commits idx elems).length) :
    (pureNormalizeAll commits idx elems).get ⟨i, hr⟩
      = pureNormalize commits (idx + i) (elems.get ⟨i, hi⟩) := by
  induction elems generalizing idx i with
  | nil => exact absurd hi (by simp)
  | cons e rest ih =>
    cases i with
    | zero => rfl
    | succ j =>
      have hj : j < rest.length := by simpa using hi
      have hjr : j < (pureNormalizeAll commits (idx + 1) rest).length := by
        simpa [pureNormalizeAll] using hr
      have := ih (idx + 1) j hj hjr
      simpa [pureNormalizeAll, Nat.add_assoc, Nat.add_comm 1 j] using this

theorem analyzeCommits_success (commits : List Commit) (content : String)
    (elems : List JsonValue)
    (hp : jsonParse (cleanAnalyzeContent content) = some (.jarr elems))
    (hnn : ∀ e ∈ elems, e ≠ .jnull) :
    analyzeCommits commits (.response content) = pureNormalizeAll commits 0 elems := by
  have h0 : analyzeCommits commits (.response content)
      = match jsonParse (cleanAnalyzeContent content) with
        | some (.jarr es) =>
          match normalizeAll commits 0 es with
          | .ok as => as
          | .error _ => commits.map fallbackAnalysis
        | _ => commits.map fallbackAnalysis := rfl
  rw [h0, hp]
  show (match normalizeAll commits 0 elems with
        | .ok as => as
        | .error _ => commits.map fallbackAnalysis) = _
  rw [normalizeAll_ok commits elems 0 hnn]

theorem pureNormalizeAll_getElem (commits : List Commit) (elems : List JsonValue)
    (idx i : Nat) (e : JsonValue) (he : elems[i]? = some e) :
    (pureNormalizeAll commits idx elems)[i]? = some (pureNormalize commits (idx + i) e) := by
  induction elems generalizing idx i with
  | nil => simp at he
  | cons x rest ih =>
    cases i with
    | zero =>
      simp only [List.getElem?_cons_zero, Option.some_inj] at he
      subst he
      simp [pureNormalizeAll]
    | succ j =>
      have := ih (idx + 1) j (by simpa using he)
      simpa [pureNormalizeAll, Nat.add_assoc, Nat.add_comm 1 j] using this

/-- C9, counterexample. The claim states that after a successful parse
every element missing a required field is filled with its documented
default — in particular a missing `confidence` becomes 0.5 — without
raising. `"[null]"` parses successfully to an array whose one element has
every field missing, but the map callback's property access on `null`
throws a `TypeError`: the catch discards the parse and substitutes the
per-commit fallback, whose confidence is 0.3, not the documented 0.5
default. -/
theorem null_element_not_defaulted_counterexample :
    jsonParse (cleanAnalyzeContent "[null]") = some (.jarr [.jnull]) ∧
    analyzeCommits [{ sha := "abc1234", message := "fix" }] (.response "[null]")
      = [fallbackAnalysis { sha := "abc1234", message := "fix" }] ∧
    (fallbackAnalysis { sha := "abc1234", message := "fix" }).confidence = mkRat 3 10 ∧
    ¬ mkRat 3 10 = mkRat 1 2 :=
  ⟨rfl, rfl, rfl, by decide⟩

/-- C9, amended. After a successful parse of the commit-analysis output to
an array all of whose elements are non-null, normalization never raises
and fills each element's missing fields with the documented defaults:
missing (falsy) `type` becomes `'chore'`, missing or non-numeric
`confidence` becomes 0.5, missing `breakingChange` becomes `false`, and a
missing or non-array `affectedComponents` becomes the empty array — so
every resulting `CommitAnalysis` carries a concrete confidence value. An
array containing a `null` element instead makes the whole response fall
back to the per-commit fallback analyses (see the counterexample). -/
theorem normalization_defaults
    (commits : List Commit) (content : String) (elems : List JsonValue)
    (hp : jsonParse (cleanAnalyzeContent content) = some (.jarr elems))
    (hnn : ∀ e ∈ elems, e ≠ .jnull) :
    (analyzeCommits commits (.response content)).length = elems.length ∧
    ∀ (i : Nat) (e : JsonValue) (a : CommitAnalysis), elems[i]? = some e →
      (analyzeCommits commits (.response content))[i]? = some a →
      ((jField e "type" = none → a.type = .jstr "chore") ∧
       ((∀ q : Rat, jField e "confidence" ≠ some (.jnum q)) → a.confidence = mkRat 1 2) ∧
       (jField e "breakingChange" = none → a.breakingChange = false) ∧
       ((∀ xs : List JsonValue, jField e "affectedComponents" ≠ some (.jarr xs)) →
          a.affectedComponents = [])) := by
  have hs := analyzeCommits_success commits content elems hp hnn
  constructor
  · rw [hs]; exact pureNormalizeAll_length commits elems 0
  · intro i e a he ha
    rw [hs, pureNormalizeAll_getElem commits elems 0 i e he, Option.some_inj] at ha
    subst ha
    refine ⟨?_, ?_, ?_, ?_⟩
    · intro hty
      simp [pureNormalize, hty, jsOrJ]
    · intro hcf
      cases hx : jField e "confidence" with
      | none => simp [pureNormalize, hx]
      | some v =>
        cases v with
        | jnum q => exact absurd hx (hcf q)
        | jnull => simp [pureNormalize, hx]
        | jbool b => simp [pureNormalize, hx]
        | jstr s => simp [pureNormalize, hx]
        | jarr xs => simp [pureNormalize, hx]
        | jobj fs => simp [pureNormalize, hx]
        | jinf => simp [pureNormalize, hx]
    · intro hbc
      simp [pureNormalize, hbc, jsTruthyO]
    · intro hac
      cases hx : jField e "affectedComponents" with
      | none => simp [pureNormalize, hx]
      | some v =>
        cases v with
        | jarr xs => exact absurd hx (hac xs)
        | jnull => simp [pureNormalize, hx]
        | jbool b => simp [pureNormalize, hx]
        | jstr s => simp [pureNormalize, hx]
        | jnum q => simp [pureNormalize, hx]
        | jobj fs => simp [pureNormalize, hx]
        | jinf => simp [pureNormalize, hx]

/-- Witness for `normalization_defaults`: one commit, the response
`"[\x7b\x7d]"` (an array with one empty object — every field missing). -/
theorem normalization_defaults_witness :
    (analyzeCommits [{ sha := "abc1234", message := "fix" }]
        (.response "[\x7b\x7d]")).length = ([JsonValue.jobj []] : List JsonValue).length ∧
    ∀ (i : Nat) (e : JsonValue) (a : CommitAnalysis),
      ([JsonValue.jobj []] : List JsonValue)[i]? = some e →
      (analyzeCommits [{ sha := "abc1234", message := "fix" }]
          (.response "[\x7b\x7d]"))[i]? = some a →
      ((jField e "type" = none → a.type = .jstr "chore") ∧
       ((∀ q : Rat, jField e "confidence" ≠ some (.jnum q)) → a.confidence = mkRat 1 2) ∧
       (jField e "breakingChange" = none → a.breakingChange = false) ∧
       ((∀ xs : List JsonValue, jField e "affectedComponents" ≠ some (.jarr xs)) →
          a.affectedComponents = [])) :=
  normalization_defaults [{ sha := "abc1234", message := "fix" }] "[\x7b\x7d]"
    [JsonValue.jobj []] rfl (by simp)

/-- C10, counterexample. The claim states that for every non-empty commit
list `analyzeCommits` returns exactly one `CommitAnalysis` per input
commit. On a successful parse the map runs over the parsed array, whose
length need not match the commit list: one commit with the response
`"[{}, {}]"` yields two analyses. -/
theorem per_commit_length_counterexample :
    ([{ sha := "abc1234", message := "fix" }] : List Commit).length = 1 ∧
    (analyzeCommits [{ sha := "abc1234", message := "fix" }]
        (.response "[\x7b\x7d, \x7b\x7d]")).length = 2 :=
  ⟨rfl, rfl⟩

/-- C10, amended. When the language-model request fails outright, or its
response does not parse as JSON, `analyzeCommits` does not raise: it
returns exactly one fallback analysis per input commit (type `'chore'`,
impact `'patch'`, `breakingChange = false`, confidence 0.3). Consequently
a failed categorization alone never drives a generation to `failed`: with
a non-empty commit fetch and a successful synthesis over the fallback
analyses, the record completes. (On a successful parse the result instead
has one entry per parsed array element, which may differ from the commit
count — see the counterexample.) -/
theorem categorization_failure_fallback
    (commits : List Commit) (content : String)
    (hfail : jsonParse (cleanAnalyzeContent content) = none) :
    analyzeCommits commits .failure = commits.map fallbackAnalysis ∧
    analyzeCommits commits (.response content) = commits.map fallbackAnalysis ∧
    (analyzeCommits commits (.response content)).length = commits.length ∧
    (∀ a ∈ analyzeCommits commits .failure,
      a.type = .jstr "chore" ∧ a.impact = .jstr "patch" ∧
      a.breakingChange = false ∧ a.confidence = mkRat 3 10) ∧
    (∀ (db : Database) (g : ChangelogGeneration) (mn : String) (p c n : Nat)
        (now : String) (sOut : ModelOutcome) (cont : GeneratedContent),
      commits ≠ [] →
      generateChangelog (analyzeCommits commits .failure) mn sOut p c n = .ok cont →
      ((processGeneration db g (.ok commits) .failure sOut mn p c n now).getGeneration
          g.id).map (fun r => r.status) = some "completed") := by
  have hresp : analyzeCommits commits (.response content) = commits.map fallbackAnalysis := by
    have h0 : analyzeCommits commits (.response content)
        = match jsonParse (cleanAnalyzeContent content) with
          | some (.jarr es) =>
            match normalizeAll commits 0 es with
            | .ok as => as
            | .error _ => commits.map fallbackAnalysis
          | _ => commits.map fallbackAnalysis := rfl
    rw [h0, hfail]
  refine ⟨rfl, hresp, by rw [hresp]; simp, ?_, ?_⟩
  · intro a ha
    have : a ∈ commits.map fallbackAnalysis := ha
    obtain ⟨c0, _, hc⟩ := List.mem_map.mp this
    subst hc
    exact ⟨rfl, rfl, rfl, rfl⟩
  · intro db g mn p c n now sOut cont hne hok
    cases commits with
    | nil => exact absurd rfl hne
    | cons c0 cs =>
      have h1 : processGeneration db g (.ok (c0 :: cs)) .failure sOut mn p c n now
          = match generateChangelog (analyzeCommits (c0 :: cs) .failure) mn sOut p c n with
            | .error _ =>
              saveGeneration
                (updateGenerationProgress
                  (saveGeneration
                    (updateGenerationProgress (updateGenerationProgress db g.id 10 now)
                      g.id 40 now)
                    { g with commits := analyzeCommits (c0 :: cs) .failure })
                  g.id 80 now)
                { { g with commits := analyzeCommits (c0 :: cs) .failure } with
                    status := "failed", updatedAt := now }
            | .ok cont2 =>
              saveGeneration
                (updateGenerationProgress
                  (updateGenerationProgress
                    (saveGeneration
                      (updateGenerationProgress (updateGenerationProgress db g.id 10 now)
                        g.id 40 now)
                      { g with commits := analyzeCommits (c0 :: cs) .failure })
                    g.id 80 now)
                  g.id 95 now)
                { { g with commits := analyzeCommits (c0 :: cs) .failure } with
                    generatedContent := some cont2
                  , status := "completed"
                  , progress := 100
                  , updatedAt := now
                  , aiMetadata := .generated cont2.metadata } := rfl
      rw [h1, hok]
      have h2 : g.id = ({ { g with commits := analyzeCommits (c0 :: cs) .failure } with
          generatedContent := some cont
        , status := "completed"
        , progress := 100
        , updatedAt := now
        , aiMetadata := .generated cont.metadata } : ChangelogGeneration).id := rfl
      rw [h2, saveGeneration_lookup_self]
      rfl

/-- Witness for `categorization_failure_fallback`: one commit, an
unparseable categorization response, and a synthesis response `"{}"`
accepted over the fallback analyses. -/
theorem categorization_failure_fallback_witness :
    analyzeCommits [{ sha := "abc1234", message := "fix" }] .failure
      = [fallbackAnalysis { sha := "abc1234", message := "fix" }] ∧
    analyzeCommits [{ sha := "abc1234", message := "fix" }] (.response "no json")
      = [fallbackAnalysis { sha := "abc1234", message := "fix" }] ∧
    ((processGeneration sampleProcDb sampleProcGen
        (.ok [{ sha := "abc1234", message := "fix" }]) .failure (.response "\x7b\x7d")
        "gpt-4o-mini" 5 7 11 "t1").getGeneration "gen2").map (fun r => r.status)
      = some "completed" := by
  have h := categorization_failure_fallback [{ sha := "abc1234", message := "fix" }]
    "no json" rfl
  refine ⟨h.1, h.2.1, ?_⟩
  exact h.2.2.2.2 sampleProcDb sampleProcGen "gpt-4o-mini" 5 7 11 "t1"
    (.response "\x7b\x7d")
    { raw := .jobj []
    , metadata :=
      { model := "gpt-4o-mini"
      , promptTokens := 5
      , completionTokens := 7
      , processingTime := 11
      , confidence := .jnum (mkRat 3 10)
      , totalCommits := 1
      , contributors := 1
      , filesChanged := .jnum 0
      , linesAdded := .jnum 0
      , linesRemoved := .jnum 0
      , generationMethod := "ai"
      , breakingChanges := 0
      , newFeatures := 0
      , bugFixes := 0 } }
    (by simp) rfl

theorem exceptBind_ok {α β : Type} (a : α) (f : α → Except Unit β) :
    ((Except.ok a : Except Unit α) >>= f) = f a := rfl

theorem exceptBind_error {α β : Type} (e : Unit) (f : α → Except Unit β) :
    ((Except.error e : Except Unit α) >>= f) = .error e := rfl

theorem generateChangelog_metadata (analyses : List CommitAnalysis) (mn : String)
    (outcome : ModelOutcome) (p c n : Nat) (cont : GeneratedContent)
    (h : generateChangelog analyses mn outcome p c n = .ok cont) :
    cont.metadata.breakingChanges
        = (analyses.filter (fun a => a.breakingChange)).length ∧
    cont.metadata.newFeatures
        = (analyses.filter (fun a => jsEqStr a.type "feature")).length ∧
    cont.metadata.bugFixes
        = (analyses.filter (fun a => jsEqStr a.type "bugfix")).length := by
  unfold generateChangelog at h
  split at h
  · exact absurd h (by simp)
  · split at h
    · exact absurd h (by simp)
    · rename_i changelog hp
      cases hc : parsedLogCheck changelog with
      | error e =>
        rw [hc, exceptBind_error] at h
        exact absurd h (by simp)
      | ok u =>
        rw [hc, exceptBind_ok] at h
        cases hm : mapSubstring7 analyses with
        | error e =>
          rw [hm, exceptBind_error] at h
          exact absurd h (by simp)
        | ok shas =>
          rw [hm, exceptBind_ok] at h
          have h2 := (Except.ok.injEq _ _).mp h
          subst h2
          exact ⟨rfl, rfl, rfl⟩

/-- C8. For every generation this pipeline completes, the
`breakingChanges`, `newFeatures`, and `bugFixes` counts in its
`aiMetadata` equal a recount over the record's `commitAnalyses`
(`commits`) — respectively the analyses with a truthy `breakingChange`,
with `type === 'feature'`, and with `type === 'bugfix'` — regardless of
any counts the model reported inside its own output (the synthesis
response is universally quantified here). -/
theorem metadata_recounted
    (db : Database) (g : ChangelogGeneration) (commits : List Commit)
    (aOut sOut : ModelOutcome) (mn : String) (p c n : Nat) (now : String)
    (cont : GeneratedContent)
    (hne : commits ≠ [])
    (hok : generateChangelog (analyzeCommits commits aOut) mn sOut p c n = .ok cont) :
    ∃ g2, (processGeneration db g (.ok commits) aOut sOut mn p c n now).getGeneration g.id
        = some g2 ∧
      g2.status = "completed" ∧
      ∃ m, g2.aiMetadata = .generated m ∧
        m.breakingChanges = (g2.commits.filter (fun a => a.breakingChange)).length ∧
        m.newFeatures = (g2.commits.filter (fun a => jsEqStr a.type "feature")).length ∧
        m.bugFixes = (g2.commits.filter (fun a => jsEqStr a.type "bugfix")).length := by
  cases commits with
  | nil => exact absurd rfl hne
  | cons c0 cs =>
    have h1 : processGeneration db g (.ok (c0 :: cs)) aOut sOut mn p c n now
        = match generateChangelog (analyzeCommits (c0 :: cs) aOut) mn sOut p c n with
          | .error _ =>
            saveGeneration
              (updateGenerationProgress
                (saveGeneration
                  (updateGenerationProgress (updateGenerationProgress db g.id 10 now)
                    g.id 40 now)
                  { g with commits := analyzeCommits (c0 :: cs) aOut })
                g.id 80 now)
              { { g with commits := analyzeCommits (c0 :: cs) aOut } with
                  status := "failed", updatedAt := now }
          | .ok cont2 =>
            saveGeneration
              (updateGenerationProgress
                (updateGenerationProgress
                  (saveGeneration
                    (updateGenerationProgress (updateGenerationProgress db g.id 10 now)
                      g.id 40 now)
                    { g with commits := analyzeCommits (c0 :: cs) aOut })
                  g.id 80 now)
                g.id 95 now)
              { { g with commits := analyzeCommits (c0 :: cs) aOut } with
                  generatedContent := some cont2
                , status := "completed"
                , progress := 100
                , updatedAt := now
                , aiMetadata := .generated cont2.metadata } := rfl
    rw [h1, hok]
    refine ⟨{ { g with commits := analyzeCommits (c0 :: cs) aOut } with
          generatedContent := some cont
        , status := "completed"
        , progress := 100
        , updatedAt := now
        , aiMetadata := .generated cont.metadata }, ?_, rfl, cont.metadata, rfl, ?_, ?_, ?_⟩
    · rw [show g.id = ({ { g with commits := analyzeCommits (c0 :: cs) aOut } with
          generatedContent := some cont
        , status := "completed"
        , progress := 100
        , updatedAt := now
        , aiMetadata := .generated cont.metadata } : ChangelogGeneration).id from rfl,
        saveGeneration_lookup_self]
    · exact (generateChangelog_metadata _ mn sOut p c n cont hok).1
    · exact (generateChangelog_metadata _ mn sOut p c n cont hok).2.1
    · exact (generateChangelog_metadata _ mn sOut p c n cont hok).2.2

/-- Witness for `metadata_recounted`: the synthesis response reports
`breakingChanges: 99` inside its own metadata, but the completed record's
`aiMetadata` carries the recounted 0. -/
theorem metadata_recounted_witness :
    ∃ g2, (processGeneration sampleProcDb sampleProcGen
        (.ok [{ sha := "abc1234", message := "fix" }]) .failure
        (.response "\x7b\"metadata\": \x7b\"breakingChanges\": 99\x7d\x7d")
        "gpt-4o-mini" 5 7 11 "t1").getGeneration sampleProcGen.id = some g2 ∧
      g2.status = "completed" ∧
      ∃ m, g2.aiMetadata = .generated m ∧
        m.breakingChanges = (g2.commits.filter (fun a => a.breakingChange)).length ∧
        m.newFeatures = (g2.commits.filter (fun a => jsEqStr a.type "feature")).length ∧
        m.bugFixes = (g2.commits.filter (fun a => jsEqStr a.type "bugfix")).length :=
  metadata_recounted sampleProcDb sampleProcGen [{ sha := "abc1234", message := "fix" }]
    .failure (.response "\x7b\"metadata\": \x7b\"breakingChanges\": 99\x7d\x7d")
    "gpt-4o-mini" 5 7 11 "t1"
    { raw := .jobj [("metadata", .jobj [("breakingChanges", .jnum (mkRat 99 1))])]
    , metadata :=
      { model := "gpt-4o-mini"
      , promptTokens := 5
      , completionTokens := 7
      , processingTime := 11
      , confidence := .jnum (mkRat 3 10)
      , totalCommits := 1
      , contributors := 1
      , filesChanged := .jnum 0
      , linesAdded := .jnum 0
      , linesRemoved := .jnum 0
      , generationMethod := "ai"
      , breakingChanges := 0
      , newFeatures := 0
      , bugFixes := 0 } }
    (by simp) rfl

theorem any_id_false {α : Type} (f : α → String) (l : List α) (x : String)
    (h : ∀ r ∈ l, f r ≠ x) : (l.any fun r => f r == x) = false := by
  rw [List.any_eq_false]
  intro r hr
  simpa using h r hr

theorem saveChanges_ok (db : Database) (sid : String) (chs : List BuiltChange)
    (hnd : (chs.map (fun ch => ch.id)).Nodup)
    (hfresh : ∀ ch ∈ chs, ∀ r ∈ db.changes, r.id ≠ ch.id) :
    saveChanges db sid chs
      = .ok { db with changes := db.changes ++ chs.map (rowOfChange sid) } () := by
  induction chs generalizing db with
  | nil =>
    rw [show (([] : List BuiltChange).map (rowOfChange sid)) = [] from rfl,
        List.append_nil]
    rfl
  | cons ch rest ih =>
    have hins : insertChangeRow db (rowOfChange sid ch)
        = some { db with changes := db.changes ++ [rowOfChange sid ch] } := by
      unfold insertChangeRow
      rw [if_neg]
      simp only [Bool.not_eq_true]
      exact any_id_false (fun r => r.id) db.changes ch.id
        (fun r hr => hfresh ch (List.mem_cons_self ch rest) r hr)
    have h0 : saveChanges db sid (ch :: rest)
        = match insertChangeRow db (rowOfChange sid ch) with
          | none => .err db
          | some db1 => saveChanges db1 sid rest := rfl
    rw [h0, hins]
    show saveChanges { db with changes := db.changes ++ [rowOfChange sid ch] } sid rest = _
    rw [ih { db with changes := db.changes ++ [rowOfChange sid ch] }
        (List.nodup_cons.mp hnd).2 ?_]
    · congr 1
      simp [List.append_assoc]
    · intro ch2 h2 r hr
      rw [List.mem_append] at hr
      rcases hr with hr | hr
      · exact hfresh ch2 (List.mem_cons_of_mem ch h2) r hr
      · rw [List.mem_singleton] at hr
        subst hr
        show ch.id ≠ ch2.id
        intro hcontra
        apply (List.nodup_cons.mp hnd).1
        show ch.id ∈ List.map (fun c => c.id) rest
        rw [hcontra]
        exact List.mem_map_of_mem (fun c => c.id) h2

theorem saveSections_ok (db : Database) (cid : String) (secs : List BuiltSection)
    (hsnd : (secs.map (fun s => s.id)).Nodup)
    (hsfresh : ∀ s ∈ secs, ∀ r ∈ db.sections, r.id ≠ s.id)
    (hcnd : (allBuiltChangeIds secs).Nodup)
    (hcfresh : ∀ x ∈ allBuiltChangeIds secs, ∀ r ∈ db.changes, r.id ≠ x) :
    saveSections db cid secs
      = .ok { db with
              sections := db.sections ++ builtSectionRows cid secs,
              changes := db.changes ++ allChangeRows secs } () := by
  induction secs generalizing db with
  | nil =>
    rw [show builtSectionRows cid [] = [] from rfl, show allChangeRows [] = [] from rfl,
        List.append_nil, List.append_nil]
    rfl
  | cons s rest ih =>
    have hdecomp : allBuiltChangeIds (s :: rest)
        = s.changes.map (fun ch => ch.id) ++ allBuiltChangeIds rest := rfl
    rw [hdecomp] at hcnd
    have hND := List.nodup_append.mp hcnd
    have hins : insertSectionRow db (rowOfSection cid s)
        = some { db with sections := db.sections ++ [rowOfSection cid s] } := by
      unfold insertSectionRow
      rw [if_neg]
      simp only [Bool.not_eq_true]
      exact any_id_false (fun r => r.id) db.sections s.id
        (fun r hr => hsfresh s (List.mem_cons_self s rest) r hr)
    have h0 : saveSections db cid (s :: rest)
        = match insertSectionRow db (rowOfSection cid s) with
          | none => DbOutcome.err db
          | some db1 =>
            match saveChanges db1 s.id s.changes with
            | .err db2 => DbOutcome.err db2
            | .ok db2 _ => saveSections db2 cid rest := rfl
    rw [h0, hins]
    show (match saveChanges { db with sections := db.sections ++ [rowOfSection cid s] }
            s.id s.changes with
          | .err db2 => DbOutcome.err db2
          | .ok db2 _ => saveSections db2 cid rest) = _
    rw [saveChanges_ok { db with sections := db.sections ++ [rowOfSection cid s] }
        s.id s.changes hND.1
        (fun ch hch r hr => hcfresh ch.id
          (by rw [hdecomp]; exact List.mem_append_left _ (List.mem_map_of_mem _ hch)) r hr)]
    show saveSections { db with
        sections := db.sections ++ [rowOfSection cid s],
        changes := db.changes ++ s.changes.map (rowOfChange s.id) } cid rest = _
    rw [ih { db with
          sections := db.sections ++ [rowOfSection cid s],
          changes := db.changes ++ s.changes.map (rowOfChange s.id) }
        (List.nodup_cons.mp hsnd).2 ?hsf hND.2.1 ?hcf]
    case hsf =>
      intro s2 h2 r hr
      rw [List.mem_append] at hr
      rcases hr with hr | hr
      · exact hsfresh s2 (List.mem_cons_of_mem s h2) r hr
      · rw [List.mem_singleton] at hr
        subst hr
        show s.id ≠ s2.id
        intro hcontra
        apply (List.nodup_cons.mp hsnd).1
        show s.id ∈ List.map (fun x => x.id) rest
        rw [hcontra]
        exact List.mem_map_of_mem (fun x => x.id) h2
    case hcf =>
      intro x hx r hr
      rw [List.mem_append] at hr
      rcases hr with hr | hr
      · exact hcfresh x (by rw [hdecomp]; exact List.mem_append_right _ hx) r hr
      · obtain ⟨ch, hch, hrow⟩ := List.mem_map.mp hr
        subst hrow
        show ch.id ≠ x
        exact fun hcontra =>
          hND.2.2 (hcontra ▸ List.mem_map_of_mem (fun c => c.id) hch) hx
    congr 1
    congr 1
    · rw [List.append_assoc]
      rfl
    · rw [List.append_assoc]
      rfl

/-- Helper: when no insert collides, `saveChangelog` appends exactly the
document row, the section rows, and the change rows. -/
theorem saveChangelog_appends
    (db : Database) (c : Changelog)
    (hdoc : ∀ r ∈ db.changelogs, r.id ≠ c.id)
    (hsnd : (c.sections.map (fun s => s.id)).Nodup)
    (hsfresh : ∀ s ∈ c.sections, ∀ r ∈ db.sections, r.id ≠ s.id)
    (hcnd : (allBuiltChangeIds c.sections).Nodup)
    (hcfresh : ∀ x ∈ allBuiltChangeIds c.sections, ∀ r ∈ db.changes, r.id ≠ x) :
    saveChangelog db c
      = .ok { db with
              changelogs := db.changelogs ++ [rowOfChangelog c],
              sections := db.sections ++ builtSectionRows c.id c.sections,
              changes := db.changes ++ allChangeRows c.sections } () := by
  have hins : insertChangelogRow db (rowOfChangelog c)
      = some { db with changelogs := db.changelogs ++ [rowOfChangelog c] } := by
    unfold insertChangelogRow
    rw [if_neg]
    simp only [Bool.not_eq_true]
    exact any_id_false (fun r => r.id) db.changelogs c.id hdoc
  have h0 : saveChangelog db c
      = match insertChangelogRow db (rowOfChangelog c) with
        | none => DbOutcome.err db
        | some db1 => saveSections db1 c.id c.sections := rfl
  rw [h0, hins]
  show saveSections { db with changelogs := db.changelogs ++ [rowOfChangelog c] }
      c.id c.sections = _
  rw [saveSections_ok { db with changelogs := db.changelogs ++ [rowOfChangelog c] }
      c.id c.sections hsnd hsfresh hcnd hcfresh]

/-- C3, amended. `saveChangelog` runs its inserts sequentially with no
surrounding transaction. When every insert succeeds — the document id and
all freshly generated section/change ids collide with nothing — the
complete document is persisted: the document row, every section row, and
every change row are appended, and nothing else changes. But assembly is
not all-or-nothing: a failing insert partway re-throws while the rows
already inserted (the document row included) stay persisted and visible
(see the counterexample). -/
theorem saveChangelog_complete_on_success
    (db : Database) (c : Changelog)
    (hdoc : ∀ r ∈ db.changelogs, r.id ≠ c.id)
    (hsnd : (c.sections.map (fun s => s.id)).Nodup)
    (hsfresh : ∀ s ∈ c.sections, ∀ r ∈ db.sections, r.id ≠ s.id)
    (hcnd : (allBuiltChangeIds c.sections).Nodup)
    (hcfresh : ∀ x ∈ allBuiltChangeIds c.sections, ∀ r ∈ db.changes, r.id ≠ x) :
    saveChangelog db c
      = .ok { db with
              changelogs := db.changelogs ++ [rowOfChangelog c],
              sections := db.sections ++ builtSectionRows c.id c.sections,
              changes := db.changes ++ allChangeRows c.sections } () :=
  saveChangelog_appends db c hdoc hsnd hsfresh hcnd hcfresh

/-- C3, counterexample. The claim states that a failure partway through
assembly never leaves a partially-written document visible. With the store
already containing a section row `sec-a` and the id supply producing
`sec-a` again (`crypto.randomUUID()` guarantees no uniqueness), the
document row `doc-a` is inserted first, then the section insert hits the
PRIMARY KEY and throws: the call errors, yet the document row `doc-a`
remains persisted with zero sections and zero changes — a
partially-written document visible to readers. -/
theorem partial_write_counterexample :
    (createChangelogFromGeneration c3Db "gen1" "u1" none c3Ids 0 "t2").isErr = true ∧
    ((createChangelogFromGeneration c3Db "gen1" "u1" none c3Ids 0 "t2").db.changelogs.map
        (fun r => r.id)) = ["doc-a"] ∧
    ((createChangelogFromGeneration c3Db "gen1" "u1" none
        c3Ids 0 "t2").db.sections.filter (fun r => r.changelogId == "doc-a")).length = 0 ∧
    (createChangelogFromGeneration c3Db "gen1" "u1" none c3Ids 0 "t2").db.changes.length
      = 0 :=
  ⟨rfl, rfl, rfl, rfl⟩

/-- Witness for `saveChangelog_complete_on_success`: a one-section,
one-change document saved into a store with no colliding ids. -/
theorem saveChangelog_complete_on_success_witness :
    saveChangelog
      { repositories := [], generations := [], changelogs := [], sections := []
      , changes := [] }
      { id := "doc-b"
      , version := some (.jstr "v1")
      , title := some (.jstr "T")
      , description := none
      , repositoryId := "acme/widgets"
      , branch := "main"
      , dateStart := "2025-01-01"
      , dateEnd := "2025-01-07"
      , sections := [{ id := "sec-b", title := some (.jstr "Features"), order := 0
                     , changes := [{ id := "chg-b", description := some (.jstr "d")
                                   , type := .jstr "feature", impact := "minor"
                                   , tags := .jarr [], commits := [some (.jstr "abc")]
                                   , author := none }] }]
      , metadata := { totalCommits := 1, contributors := 1, filesChanged := 0
                    , linesAdded := 0, linesRemoved := 0, generationMethod := "ai"
                    , aiGenerationId := "gen1" }
      , status := "draft"
      , tags := []
      , createdBy := "u1"
      , createdAt := "t"
      , updatedAt := "t" }
      = .ok { repositories := [], generations := []
            , changelogs := [rowOfChangelog
                { id := "doc-b"
                , version := some (.jstr "v1")
                , title := some (.jstr "T")
                , description := none
                , repositoryId := "acme/widgets"
                , branch := "main"
                , dateStart := "2025-01-01"
                , dateEnd := "2025-01-07"
                , sections := [{ id := "sec-b", title := some (.jstr "Features")
                               , order := 0
                               , changes := [{ id := "chg-b"
                                             , description := some (.jstr "d")
                                             , type := .jstr "feature", impact := "minor"
                                             , tags := .jarr []
                                             , commits := [some (.jstr "abc")]
                                             , author := none }] }]
                , metadata := { totalCommits := 1, contributors := 1, filesChanged := 0
                              , linesAdded := 0, linesRemoved := 0
                              , generationMethod := "ai", aiGenerationId := "gen1" }
                , status := "draft"
                , tags := []
                , createdBy := "u1"
                , createdAt := "t"
                , updatedAt := "t" }]
            , sections := [{ id := "sec-b", changelogId := "doc-b"
                           , title := some (.jstr "Features"), orderIndex := 0 }]
            , changes := [{ id := "chg-b", sectionId := "sec-b"
                          , description := some (.jstr "d"), type := .jstr "feature"
                          , impact := "minor", tags := .jarr []
                          , commits := [some (.jstr "abc")], author := none
                          , affectedComponents := [] }] } () := by
  rw [saveChangelog_complete_on_success _ _ (by simp) (by simp) (by simp) ?hc (by simp)]
  case hc => simp [allBuiltChangeIds]
  rfl

theorem changeOkB_ne_null (c : JsonValue) (h : changeOkB c = true) : c ≠ .jnull := by
  cases c <;> simp_all [changeOkB]

theorem buildChange_ok (ids : Nat → String) (k : Nat) (c : JsonValue)
    (h : changeOkB c = true) :
    buildChange ids k c = .ok (pureBuildChange ids k c, k + 1) := by
  have hn := changeOkB_ne_null c h
  unfold buildChange pureBuildChange
  rw [jsGetField_ok c "description" hn, jsGetField_ok c "category" hn,
      jsGetField_ok c "tags" hn, jsGetField_ok c "commit" hn,
      jsGetField_ok c "author" hn]
  rfl

theorem buildChanges_ok (ids : Nat → String) (k : Nat) (cs : List JsonValue)
    (h : ∀ c ∈ cs, changeOkB c = true) :
    buildChanges ids k cs = .ok (pureBuildChanges ids k cs, k + cs.length) := by
  induction cs generalizing k with
  | nil => rfl
  | cons c rest ih =>
    have h0 : buildChanges ids k (c :: rest)
        = match buildChange ids k c with
          | .error e => .error e
          | .ok (ch, k1) =>
            match buildChanges ids k1 rest with
            | .error e => .error e
            | .ok (chs, k2) => .ok (ch :: chs, k2) := rfl
    rw [h0, buildChange_ok ids k c (h c (List.mem_cons_self c rest))]
    show (match buildChanges ids (k + 1) rest with
          | .error e => Except.error e
          | .ok (chs, k2) => Except.ok (pureBuildChange ids k c :: chs, k2)) = _
    rw [ih (k + 1) (fun x hx => h x (List.mem_cons_of_mem c hx))]
    show Except.ok (pureBuildChange ids k c :: pureBuildChanges ids (k + 1) rest,
        k + 1 + rest.length) = _
    rw [show k + 1 + rest.length = k + (rest.length + 1) by omega]
    rfl

theorem sectionOkB_parts (s : JsonValue) (h : sectionOkB s = true) :
    s ≠ .jnull ∧ ∃ cs, jField s "changes" = some (.jarr cs) ∧ ∀ c ∈ cs, changeOkB c = true := by
  unfold sectionOkB at h
  rw [Bool.and_eq_true] at h
  refine ⟨changeOkB_ne_null s h.1, ?_⟩
  cases hx : jField s "changes" with
  | none => rw [hx] at h; exact absurd h.2 (by simp)
  | some v =>
    cases v with
    | jarr cs =>
      refine ⟨cs, rfl, ?_⟩
      rw [hx] at h
      intro c hc
      exact List.all_eq_true.mp h.2 c hc
    | jnull => rw [hx] at h; exact absurd h.2 (by simp)
    | jbool b => rw [hx] at h; exact absurd h.2 (by simp)
    | jnum q => rw [hx] at h; exact absurd h.2 (by simp)
    | jstr t => rw [hx] at h; exact absurd h.2 (by simp)
    | jobj fs => rw [hx] at h; exact absurd h.2 (by simp)
    | jinf => rw [hx] at h; exact absurd h.2 (by simp)

theorem changesOf_eq (s : JsonValue) (cs : List JsonValue)
    (h : jField s "changes" = some (.jarr cs)) : changesOf s = cs := by
  unfold changesOf
  rw [h]

theorem buildSection_ok (ids : Nat → String) (k index : Nat) (s : JsonValue)
    (h : sectionOkB s = true) :
    buildSection ids k index s
      = .ok (pureBuildSection ids k index s, k + sectionWeight s) := by
  obtain ⟨hn, cs, hcs, hok⟩ := sectionOkB_parts s h
  unfold buildSection
  rw [jsGetField_ok s "title" hn, jsGetField_ok s "changes" hn, hcs]
  show (match buildChanges ids (k + 1) cs with
        | .error e => Except.error e
        | .ok (chs, k1) =>
          Except.ok (({ id := ids k, title := jField s "title", order := index
                      , changes := chs } : BuiltSection), k1)) = _
  rw [buildChanges_ok ids (k + 1) cs hok]
  unfold pureBuildSection sectionWeight
  rw [changesOf_eq s cs hcs]
  rw [show k + 1 + cs.length = k + (1 + cs.length) by omega]

theorem buildSections_ok (ids : Nat → String) (k index : Nat) (ss : List JsonValue)
    (h : ∀ s ∈ ss, sectionOkB s = true) :
    buildSections ids k index ss
      = .ok (pureBuildSections ids k index ss, k + sectionsWeight ss) := by
  induction ss generalizing k index with
  | nil => rfl
  | cons s rest ih =>
    have h0 : buildSections ids k index (s :: rest)
        = match buildSection ids k index s with
          | .error e => .error e
          | .ok (sec, k1) =>
            match buildSections ids k1 (index + 1) rest with
            | .error e => .error e
            | .ok (secs, k2) => .ok (sec :: secs, k2) := rfl
    rw [h0, buildSection_ok ids k index s (h s (List.mem_cons_self s rest))]
    show (match buildSections ids (k + sectionWeight s) (index + 1) rest with
          | .error e => Except.error e
          | .ok (secs, k2) =>
            Except.ok (pureBuildSection ids k index s :: secs, k2)) = _
    rw [ih (k + sectionWeight s) (index + 1)
        (fun x hx => h x (List.mem_cons_of_mem s hx))]
    have hw : k + sectionWeight s + sectionsWeight rest
        = k + sectionsWeight (s :: rest) := by
      unfold sectionsWeight
      rw [List.map_cons, List.sum_cons]
      omega
    rw [hw]
    rfl

theorem idsRange_append (ids : Nat → String) (k a b : Nat) :
    idsRange ids k (a + b) = idsRange ids k a ++ idsRange ids (k + a) b := by
  induction a generalizing k with
  | zero => simp [idsRange]
  | succ a2 ih =>
    rw [show a2 + 1 + b = (a2 + b) + 1 by omega]
    show ids k :: idsRange ids (k + 1) (a2 + b)
        = idsRange ids k (a2 + 1) ++ idsRange ids (k + (a2 + 1)) b
    rw [ih (k + 1),
        show idsRange ids k (a2 + 1) = ids k :: idsRange ids (k + 1) a2 from rfl,
        List.cons_append,
        show k + (a2 + 1) = k + 1 + a2 by omega]

theorem mem_idsRange (ids : Nat → String) (k j n : Nat) (h : j < n) :
    ids (k + j) ∈ idsRange ids k n := by
  induction n generalizing k j with
  | zero => omega
  | succ m ih =>
    cases j with
    | zero => simp [idsRange]
    | succ j2 =>
      have hmem : ids (k + 1 + j2) ∈ idsRange ids (k + 1) m := ih (k + 1) j2 (by omega)
      unfold idsRange
      rw [show k + (j2 + 1) = k + 1 + j2 by omega]
      exact List.mem_cons_of_mem _ hmem

theorem pureBuildChanges_ids (ids : Nat → String) (k : Nat) (cs : List JsonValue) :
    (pureBuildChanges ids k cs).map (fun ch => ch.id) = idsRange ids k cs.length := by
  induction cs generalizing k with
  | nil => rfl
  | cons c rest ih =>
    unfold pureBuildChanges idsRange
    rw [List.map_cons, ih (k + 1)]
    rfl

theorem pureBuildChanges_length (ids : Nat → String) (k : Nat) (cs : List JsonValue) :
    (pureBuildChanges ids k cs).length = cs.length := by
  induction cs generalizing k with
  | nil => rfl
  | cons c rest ih => simpa [pureBuildChanges] using ih (k + 1)

theorem pureBuildSections_length (ids : Nat → String) (k index : Nat)
    (ss : List JsonValue) :
    (pureBuildSections ids k index ss).length = ss.length := by
  induction ss generalizing k index with
  | nil => rfl
  | cons s rest ih => simpa [pureBuildSections] using ih (k + sectionWeight s) (index + 1)

theorem builtIds_pure (ids : Nat → String) (k index : Nat) (ss : List JsonValue) :
    builtIds (pureBuildSections ids k index ss) = idsRange ids k (sectionsWeight ss) := by
  induction ss generalizing k index with
  | nil => rfl
  | cons s rest ih =>
    have h0 : builtIds (pureBuildSections ids k index (s :: rest))
        = (ids k :: (pureBuildChanges ids (k + 1) (changesOf s)).map (fun ch => ch.id))
          ++ builtIds (pureBuildSections ids (k + sectionWeight s) (index + 1) rest) := rfl
    rw [h0, pureBuildChanges_ids ids (k + 1) (changesOf s),
        ih (k + sectionWeight s) (index + 1)]
    have h1 : sectionsWeight (s :: rest) = sectionWeight s + sectionsWeight rest := by
      unfold sectionsWeight
      rw [List.map_cons, List.sum_cons]
    rw [h1, idsRange_append ids k (sectionWeight s) (sectionsWeight rest)]
    have h2 : idsRange ids k (sectionWeight s)
        = ids k :: idsRange ids (k + 1) (changesOf s).length := by
      unfold sectionWeight
      rw [show 1 + (changesOf s).length = (changesOf s).length + 1 by omega]
      rfl
    rw [h2]

theorem sectionIds_sublist (secs : List BuiltSection) :
    (secs.map (fun s => s.id)).Sublist (builtIds secs) := by
  induction secs with
  | nil => simp
  | cons s rest ih =>
    have h0 : builtIds (s :: rest)
        = s.id :: (s.changes.map (fun ch => ch.id) ++ builtIds rest) := rfl
    rw [List.map_cons, h0]
    exact List.Sublist.cons₂ s.id
      (ih.trans (List.sublist_append_right _ _))

theorem changeIds_sublist (secs : List BuiltSection) :
    (allBuiltChangeIds secs).Sublist (builtIds secs) := by
  induction secs with
  | nil => simp [allBuiltChangeIds]
  | cons s rest ih =>
    have h0 : builtIds (s :: rest)
        = s.id :: (s.changes.map (fun ch => ch.id) ++ builtIds rest) := rfl
    have h1 : allBuiltChangeIds (s :: rest)
        = s.changes.map (fun ch => ch.id) ++ allBuiltChangeIds rest := rfl
    rw [h0, h1]
    exact List.Sublist.cons s.id (List.Sublist.append_left ih _)

theorem allChangeRows_ids (secs : List BuiltSection) :
    (allChangeRows secs).map (fun r => r.id) = allBuiltChangeIds secs := by
  induction secs with
  | nil => rfl
  | cons s rest ih =>
    have h0 : allChangeRows (s :: rest)
        = s.changes.map (rowOfChange s.id) ++ allChangeRows rest := rfl
    have h1 : allBuiltChangeIds (s :: rest)
        = s.changes.map (fun ch => ch.id) ++ allBuiltChangeIds rest := rfl
    rw [h0, h1, List.map_append, ih, List.map_map]
    rfl

theorem builtSectionRows_ids (cid : String) (secs : List BuiltSection) :
    (builtSectionRows cid secs).map (fun r => r.id) = secs.map (fun s => s.id) := by
  unfold builtSectionRows
  rw [List.map_map]
  rfl

theorem allChangeRows_pure_length (ids : Nat → String) (k index : Nat)
    (ss : List JsonValue) :
    (allChangeRows (pureBuildSections ids k index ss)).length = totalChangeCount ss := by
  induction ss generalizing k index with
  | nil => rfl
  | cons s rest ih =>
    have h0 : allChangeRows (pureBuildSections ids k index (s :: rest))
        = (pureBuildChanges ids (k + 1) (changesOf s)).map
            (rowOfChange (ids k))
          ++ allChangeRows (pureBuildSections ids (k + sectionWeight s) (index + 1) rest)
        := rfl
    rw [h0, List.length_append, List.length_map,
        pureBuildChanges_length ids (k + 1) (changesOf s),
        ih (k + sectionWeight s) (index + 1)]
    unfold totalChangeCount
    rw [List.map_cons, List.sum_cons]

/-- C7. For a completed generation whose content has sections `ss` (N
sections containing M changes in total), and an id supply whose next
`sectionsWeight ss + 1` values are pairwise distinct, absent from all
three tables, and distinct from every id inside the generation's content,
`createChangelogFromGeneration` succeeds and persists exactly N new
section rows and exactly M new change rows, each carrying an id drawn
freshly from the supply and distinct from every id appearing inside the
generation's content. -/
theorem fresh_rows_and_counts
    (db : Database) (gid uid : String) (cust : Option Customizations)
    (ids : Nat → String) (k : Nat) (now : String)
    (gen : ChangelogGeneration) (content : GeneratedContent) (ss : List JsonValue)
    (hgen : db.getGeneration gid = some gen)
    (hst : gen.status = "completed")
    (hcontent : gen.generatedContent = some content)
    (hss : content.field "sections" = some (.jarr ss))
    (hok : ∀ s ∈ ss, sectionOkB s = true)
    (hnd : (idsRange ids k (sectionsWeight ss + 1)).Nodup)
    (hfresh : ∀ x ∈ idsRange ids k (sectionsWeight ss + 1),
      (∀ r ∈ db.changelogs, r.id ≠ x) ∧ (∀ r ∈ db.sections, r.id ≠ x) ∧
      (∀ r ∈ db.changes, r.id ≠ x) ∧ x ∉ contentInternalIds ss) :
    ∃ db2 chg, createChangelogFromGeneration db gid uid cust ids k now = .ok db2 chg ∧
      db2.sections.length = db.sections.length + ss.length ∧
      db2.changes.length = db.changes.length + totalChangeCount ss ∧
      (∀ x ∈ (db2.sections.drop db.sections.length).map (fun r => r.id)
            ++ (db2.changes.drop db.changes.length).map (fun r => r.id),
        x ∈ idsRange ids k (sectionsWeight ss + 1) ∧ x ∉ contentInternalIds ss) ∧
      ((db2.sections.drop db.sections.length).map (fun r => r.id)).Nodup ∧
      ((db2.changes.drop db.changes.length).map (fun r => r.id)).Nodup := by
  have hsubIds : builtIds (pureBuildSections ids k 0 ss)
      = idsRange ids k (sectionsWeight ss) := builtIds_pure ids k 0 ss
  have hpre : (idsRange ids k (sectionsWeight ss)).Sublist
      (idsRange ids k (sectionsWeight ss + 1)) := by
    rw [idsRange_append ids k (sectionsWeight ss) 1]
    exact List.sublist_append_left _ _
  have hndW : (idsRange ids k (sectionsWeight ss)).Nodup := hnd.sublist hpre
  have hsecIds_sub : ((pureBuildSections ids k 0 ss).map (fun s => s.id)).Sublist
      (idsRange ids k (sectionsWeight ss)) := by
    rw [← hsubIds]
    exact sectionIds_sublist _
  have hchgIds_sub : (allBuiltChangeIds (pureBuildSections ids k 0 ss)).Sublist
      (idsRange ids k (sectionsWeight ss)) := by
    rw [← hsubIds]
    exact changeIds_sublist _
  have hsnd2 : ((pureBuildSections ids k 0 ss).map (fun s => s.id)).Nodup :=
    hndW.sublist hsecIds_sub
  have hcnd2 : (allBuiltChangeIds (pureBuildSections ids k 0 ss)).Nodup :=
    hndW.sublist hchgIds_sub
  have hmemW : ∀ x ∈ idsRange ids k (sectionsWeight ss),
      x ∈ idsRange ids k (sectionsWeight ss + 1) := fun x hx => hpre.subset hx
  have hdocId : ids (k + sectionsWeight ss) ∈ idsRange ids k (sectionsWeight ss + 1) :=
    mem_idsRange ids k (sectionsWeight ss) (sectionsWeight ss + 1) (by omega)
  have hdoc2 : ∀ r ∈ db.changelogs, r.id ≠ ids (k + sectionsWeight ss) :=
    fun r hr => (hfresh _ hdocId).1 r hr
  have hsfresh2 : ∀ s ∈ pureBuildSections ids k 0 ss, ∀ r ∈ db.sections, r.id ≠ s.id :=
    fun s hs r hr =>
      (hfresh s.id (hmemW _ (hsecIds_sub.subset (List.mem_map_of_mem _ hs)))).2.1 r hr
  have hcfresh2 : ∀ x ∈ allBuiltChangeIds (pureBuildSections ids k 0 ss),
      ∀ r ∈ db.changes, r.id ≠ x :=
    fun x hx r hr => (hfresh x (hmemW _ (hchgIds_sub.subset hx))).2.2.1 r hr
  have hbeq : (gen.status == "completed") = true := by rw [hst]; rfl
  have hred : createChangelogFromGeneration db gid uid cust ids k now
      = match saveChangelog db
          (builtChangelog gid uid cust ids k now gen content ss) with
        | .ok db1 _ =>
          DbOutcome.ok db1 (builtChangelog gid uid cust ids k now gen content ss)
        | .err db1 => DbOutcome.err db1 := by
    simp only [createChangelogFromGeneration, hgen, hbeq, if_true, hcontent, hss,
        buildSections_ok ids k 0 ss hok, builtChangelog]
  rw [hred,
      saveChangelog_appends db
        (builtChangelog gid uid cust ids k now gen content ss)
        hdoc2 hsnd2 hsfresh2 hcnd2 hcfresh2]
  rw [show (builtChangelog gid uid cust ids k now gen content ss).sections
      = pureBuildSections ids k 0 ss from rfl]
  refine ⟨_, _, rfl, ?_, ?_, ?_, ?_, ?_⟩
  · show (db.sections ++ builtSectionRows _ _).length = _
    rw [List.length_append]
    unfold builtSectionRows
    rw [List.length_map]
    show db.sections.length + (pureBuildSections ids k 0 ss).length = _
    rw [pureBuildSections_length]
  · show (db.changes ++ allChangeRows _).length = _
    rw [List.length_append]
    show db.changes.length + (allChangeRows (pureBuildSections ids k 0 ss)).length = _
    rw [allChangeRows_pure_length]
  · intro x hx
    rw [List.mem_append] at hx
    have hx2 : x ∈ idsRange ids k (sectionsWeight ss) := by
      rcases hx with hx | hx
      · rw [show ((db.sections ++ builtSectionRows
              (builtChangelog gid uid cust ids k now gen content ss).id
              (pureBuildSections ids k 0 ss)).drop db.sections.length)
            = builtSectionRows
                (builtChangelog gid uid cust ids k now gen content ss).id
                (pureBuildSections ids k 0 ss) from List.drop_left _ _,
            builtSectionRows_ids] at hx
        exact hsecIds_sub.subset hx
      · rw [show ((db.changes ++ allChangeRows (pureBuildSections ids k 0 ss)).drop
              db.changes.length) = allChangeRows (pureBuildSections ids k 0 ss)
            from List.drop_left _ _, allChangeRows_ids] at hx
        exact hchgIds_sub.subset hx
    exact ⟨hmemW x hx2, (hfresh x (hmemW x hx2)).2.2.2⟩
  · rw [show ((db.sections ++ builtSectionRows
          (builtChangelog gid uid cust ids k now gen content ss).id
          (pureBuildSections ids k 0 ss)).drop db.sections.length)
        = builtSectionRows
            (builtChangelog gid uid cust ids k now gen content ss).id
            (pureBuildSections ids k 0 ss) from List.drop_left _ _,
        builtSectionRows_ids]
    exact hsnd2
  · rw [show ((db.changes ++ allChangeRows (pureBuildSections ids k 0 ss)).drop
          db.changes.length) = allChangeRows (pureBuildSections ids k 0 ss)
        from List.drop_left _ _, allChangeRows_ids]
    exact hcnd2

/-- Witness for `fresh_rows_and_counts`: two sections with one change
each (N = 2, M = 2), generation-internal ids `features`, `feat-auth`,
`bugfixes`, `fix-leak`, and the fresh supply `fresh-0`, …, `fresh-4`. -/
theorem fresh_rows_and_counts_witness :
    ∃ db2 chg, createChangelogFromGeneration c7Db "gen7" "u1" none c7Ids 0 "t7"
        = .ok db2 chg ∧
      db2.sections.length = c7Db.sections.length + c7Sections.length ∧
      db2.changes.length = c7Db.changes.length + totalChangeCount c7Sections ∧
      (∀ x ∈ (db2.sections.drop c7Db.sections.length).map (fun r => r.id)
            ++ (db2.changes.drop c7Db.changes.length).map (fun r => r.id),
        x ∈ idsRange c7Ids 0 (sectionsWeight c7Sections + 1) ∧
          x ∉ contentInternalIds c7Sections) ∧
      ((db2.sections.drop c7Db.sections.length).map (fun r => r.id)).Nodup ∧
      ((db2.changes.drop c7Db.changes.length).map (fun r => r.id)).Nodup :=
  fresh_rows_and_counts c7Db "gen7" "u1" none c7Ids 0 "t7" c7Gen
    { raw := c7Raw, metadata := sampleGenMeta } c7Sections
    rfl rfl rfl rfl
    (fun s hs =>
      List.all_eq_true.mp (show c7Sections.all sectionOkB = true from rfl) s hs)
    (by decide) (by decide)

end GreptileChangelog
